import Mathlib

/-!
Shallow embedding of the metrics-computation engine of the
jira-operational-metrics repository (frontend dataProcessor).

Modelling conventions:
- Timestamps are integer milliseconds since the epoch, written `Int`.
  Date strings of the source arrive here already parsed: a field holding a
  missing or unparseable date string is `none`, a parseable one is `some ms`.
- JavaScript `Map` objects are insertion-ordered association lists with
  overwrite-in-place semantics (`insertAssoc`); `Set` objects are
  insertion-ordered duplicate-free lists (`addSet`).
- Status identifiers are the canonical strings the source coerces to with
  `String(...)`; `String(null)` is the literal string "null".
- JavaScript numbers are modelled as `ℚ` (durations are exact here where the
  source uses binary floating point).
- Arguments the source guards with `Array.isArray` are `Option (List _)`:
  `none` is any non-array value.
-/

namespace JiraMetrics

/-- One entry of `history.items` in a changelog: a field-change record. -/
structure HistoryItem where
  field : String
  fromVal : Option String
  fromStringVal : Option String
  toVal : Option String
  deriving DecidableEq, Repr

/-- One changelog history: an audit timestamp plus its item list; `items`
is `none` when the source object lacks an items array. -/
structure History where
  created : Option Int
  items : Option (List HistoryItem)
  deriving DecidableEq, Repr

/-- The `fields.status` object of an issue. -/
structure IssueStatusField where
  id : Option String
  deriving DecidableEq, Repr

/-- The `fields` object of an issue. -/
structure IssueFields where
  created : Option Int
  status : Option IssueStatusField
  deriving DecidableEq, Repr

/-- A raw issue as consumed by the processor; `changelog` is `none` when the
issue has no `changelog.histories` array. -/
structure Issue where
  key : String
  fields : IssueFields
  changelog : Option (List History)
  deriving DecidableEq, Repr

/-- One entry of the `allStatuses` metadata array. -/
structure Status where
  id : Option String
  name : Option String
  deriving DecidableEq, Repr

/-- A user-defined status group `{name, statuses}`. -/
structure StatusGroup where
  name : String
  statuses : List String
  deriving DecidableEq, Repr

/-- A flow-point selector `{type, value}`; a missing `value` is the empty
string (the JavaScript falsy case). -/
structure FlowConfig where
  type : String
  value : String
  deriving DecidableEq, Repr

/-- JavaScript string truthiness: the empty string is falsy. -/
def truthy : Option String → Option String
  | some s => if s = "" then none else some s
  | none => none

/-- JavaScript `String(...)` applied to a nullable string: `String(null)` is
the literal string "null". -/
def strOfOptVal : Option String → String
  | some s => s
  | none => "null"

/-- Map.set semantics: overwrite in place when the key exists, else append. -/
def insertAssoc (k : String) (v : α) : List (String × α) → List (String × α)
  | [] => [(k, v)]
  | (k', v') :: rest => if k' = k then (k, v) :: rest else (k', v') :: insertAssoc k v rest

/-- Map.get semantics on an association list. -/
def lookupAssoc (m : List (String × α)) (k : String) : Option α :=
  match m with
  | [] => none
  | (k', v) :: rest => if k' = k then some v else lookupAssoc rest k

/-- Map.has semantics on an association list. -/
def hasKey (m : List (String × α)) (k : String) : Bool :=
  (lookupAssoc m k).isSome

/-- Set.add semantics: append if absent, keep insertion order. -/
def addSet (s : List String) (x : String) : List String :=
  if x ∈ s then s else s ++ [x]

/-- JavaScript reduce with + and initial 0, the summation idiom of the source. -/
def listSum (l : List ℚ) : ℚ := l.foldl (· + ·) 0

/-- Embedding of getDuration: clamp nonpositive differences to 0, then convert
to the requested unit. The null-date guard of the source is vacuous here since
both arguments are genuine instants. -/
def getDuration (startDate endDate : Int) (unit : String) : ℚ :=
  let diffMs : Int := endDate - startDate
  if diffMs ≤ 0 then 0
  else
    if unit = "ms" then (diffMs : ℚ)
    else if unit = "hours" then (diffMs : ℚ) / (1000 * 60 * 60)
    else (diffMs : ℚ) / (1000 * 60 * 60 * 24)

/-- The unit "ms" instantiation of getDuration. Intecond durations are
integral JavaScript numbers, so this branch is modelled in Int; the lemma
getDuration_ms_eq below ties it to the shared source helper. -/
def getDurationMs (startDate endDate : Int) : Int :=
  let diffMs : Int := endDate - startDate
  if diffMs ≤ 0 then 0 else diffMs

/-- Embedding of getPercentile over an already sorted array. Where the source
indexes past the end (percentile above 100) it yields undefined; this model
returns 0 there, a case no caller exercises. -/
def getPercentile (sortedArray : List ℚ) (percentile : ℚ) : ℚ :=
  if sortedArray = [] then 0
  else
    let index : Int := ⌈percentile / 100 * sortedArray.length⌉ - 1
    sortedArray.getD (max 0 index).toNat 0

/-- Embedding of getDateRange over day numbers (a calendar day string stands
for its UTC day index). Missing or unparseable bounds give the empty range, a
start after the end gives the empty range, and ranges longer than 1000 days
give the empty range as in the source safety break. -/
def getDateRange : Option Int → Option Int → List Int
  | some s, some e =>
    if s > e then []
    else if e - s + 1 > 1000 then []
    else (List.range (e - s + 1).toNat).map (fun k => s + k)
  | _, _ => []

/-- UTC calendar day index of an instant, the model of
toISOString().split(given T)[0] grouping. -/
def dayOf (ts : Int) : Int := Int.fdiv ts 86400000

/-- Embedding of getStatusIdsFromConfig: resolve a selector to a status-id
set. The group-validity guard of the source (statuses must be an array) is
always satisfied by the typed group model. -/
def getStatusIdsFromConfig (config : Option FlowConfig) (statusGroups : List StatusGroup)
    (statusesMap : List (String × String)) : List String :=
  match config with
  | none => []
  | some cfg =>
    if cfg.value = "" then []
    else if cfg.type = "group" then
      match statusGroups.find? (fun g => g.name = cfg.value) with
      | some group =>
        group.statuses.foldl (fun ids id => if hasKey statusesMap id then addSet ids id else ids) []
      | none => []
    else if cfg.type = "status" then
      if hasKey statusesMap cfg.value then [cfg.value] else []
    else []

/-- A status-change record extracted from the changelog. -/
structure StatusChange where
  timestamp : Int
  fromId : String
  toId : String
  deriving DecidableEq, Repr

/-- Comparison used to sort extracted changes ascending by timestamp. -/
def changeLE (a b : StatusChange) : Prop := a.timestamp ≤ b.timestamp

instance : DecidableRel changeLE := fun a b =>
  inferInstanceAs (Decidable (a.timestamp ≤ b.timestamp))

instance : IsTotal StatusChange changeLE :=
  ⟨fun a b => le_total a.timestamp b.timestamp⟩

instance : IsTrans StatusChange changeLE :=
  ⟨fun _ _ _ h1 h2 => le_trans h1 h2⟩

/-- The item filter of the timeline builder: field is status and the old
value and the old display string are both present. -/
def itemKeep (item : HistoryItem) : Bool :=
  item.field = "status" && item.fromVal.isSome && item.fromStringVal.isSome

/-- Changes contributed by one history entry: filter the items, then attach
the history timestamp, dropping the whole entry when that timestamp is
missing or unparseable. -/
def historyChanges (h : History) : List StatusChange :=
  match h.items with
  | none => []
  | some items =>
    (items.filter itemKeep).filterMap (fun item =>
      match h.created with
      | none => none
      | some ts => some ⟨ts, strOfOptVal item.fromVal, strOfOptVal item.toVal⟩)

/-- Embedding of the status-change extraction of buildIssueTimelineByStatus:
flatten per-history changes and sort ascending by timestamp (stable, as the
ECMAScript sort is). -/
def extractStatusChanges (histories : List History) : List StatusChange :=
  List.insertionSort changeLE ((histories.map historyChanges).flatten)

/-- One occupancy event of a built timeline. -/
structure TimelineEvent where
  timestamp : Int
  statusId : String
  deriving DecidableEq, Repr

/-- The output of the timeline builder for one issue. -/
structure IssueTimeline where
  key : String
  timeline : List TimelineEvent
  currentStatusId : Option String
  deriving DecidableEq, Repr

/-- The transition-appending loop of the builder: keep a change when its
target status is truthy, known to the master map and different from the last
recorded status. The date-validity re-check of the source is vacuous since
extracted changes always carry a parsed timestamp. -/
def appendChanges (masterMap : List (String × String)) : String → List StatusChange → List TimelineEvent
  | _, [] => []
  | lastAdded, c :: rest =>
    match truthy (some c.toId) with
    | some next =>
      if hasKey masterMap next && next ≠ lastAdded then
        ⟨c.timestamp, next⟩ :: appendChanges masterMap next rest
      else
        appendChanges masterMap lastAdded rest
    | none => appendChanges masterMap lastAdded rest

/-- The extracted, sorted status changes of one issue; an absent changelog
contributes none. -/
def issueStatusChanges (issue : Issue) : List StatusChange :=
  match issue.changelog with
  | some histories => extractStatusChanges histories
  | none => []

/-- The initial status of an issue: the source of the chronologically first
change when one exists, else the current status field; in both cases subject
to string truthiness. -/
def issueCreatedStatusId (issue : Issue) : Option String :=
  match issueStatusChanges issue with
  | c :: _ => truthy (some c.fromId)
  | [] => truthy (issue.fields.status.bind (fun s => s.id))

/-- Embedding of buildIssueTimelineByStatus. -/
def buildIssueTimelineByStatus (issue : Issue) (statusMasterMap : List (String × String)) :
    Option IssueTimeline :=
  match issue.fields.created with
  | none => none
  | some createdDate =>
    match issueCreatedStatusId issue with
    | none => none
    | some cid =>
      if hasKey statusMasterMap cid then
        some { key := issue.key
               timeline :=
                 ⟨createdDate, cid⟩ ::
                   appendChanges statusMasterMap cid (issueStatusChanges issue)
               currentStatusId := truthy (issue.fields.status.bind (fun s => s.id)) }
      else none

/-- Lookup-table construction of processMetrics over allStatuses: skip
entries without an id, default a falsy name. -/
def buildStatusMasterMap (allStatuses : List Status) : List (String × String) :=
  allStatuses.foldl (fun m s =>
    match s.id with
    | some id =>
      let nm :=
        match truthy s.name with
        | some n => n
        | none => "Status " ++ id
      insertAssoc id nm m
    | none => m) []

/-- A group survives the structural guard of processMetrics when its name is
truthy; the statuses-array check always holds in the typed model. -/
def groupValid (g : StatusGroup) : Bool := g.name ≠ ""

/-- Group names in first-occurrence order; the same order carries the
zero-initialised group counters of processMetrics. -/
def buildGroupOrder (groups : List StatusGroup) : List String :=
  groups.foldl (fun ord g =>
    if groupValid g && !(g.name ∈ ord) then ord ++ [g.name] else ord) []

/-- Status-to-group map of processMetrics: later groups overwrite earlier
ones for a shared status id; member ids absent from the master map are
skipped. -/
def buildStatusToGroupMap (groups : List StatusGroup) (masterMap : List (String × String)) :
    List (String × String) :=
  groups.foldl (fun m g =>
    if groupValid g then
      g.statuses.foldl (fun m' sid => if hasKey masterMap sid then insertAssoc sid g.name m' else m') m
    else m) []

/-- Row of distribution.byStatus. -/
structure StatusDistEntry where
  id : String
  name : String
  count : Nat
  percentage : ℚ
  deriving DecidableEq, Repr

/-- Row of distribution.byGroup. -/
structure GroupDistEntry where
  name : String
  count : Nat
  percentage : ℚ
  deriving DecidableEq, Repr

/-- Result of calculateDistributionDetailed. -/
structure DistributionResult where
  byStatus : List StatusDistEntry
  byGroup : List GroupDistEntry
  deriving DecidableEq, Repr

/-- Counter increment on the status-counter table (keys never grow). -/
def bumpStatusCounter (counters : List (String × String × Nat)) (sid : String) :
    List (String × String × Nat) :=
  match counters with
  | [] => []
  | (k, nm, c) :: rest =>
    if k = sid then (k, nm, c + 1) :: rest else (k, nm, c) :: bumpStatusCounter rest sid

/-- Key presence in a status-keyed counter table. -/
def hasCounterKey (counters : List (String × String × α)) (k : String) : Bool :=
  counters.any (fun p => p.1 = k)

/-- Code-point lexicographic comparison on character lists. -/
def charListLtb : List Char → List Char → Bool
  | [], [] => false
  | [], _ :: _ => true
  | _ :: _, [] => false
  | a :: as, b :: bs =>
    if a.toNat < b.toNat then true
    else if b.toNat < a.toNat then false
    else charListLtb as bs

/-- Strict code-point order on strings, the model of a negative
localeCompare result. -/
def strLtb (a b : String) : Bool := charListLtb a.data b.data

/-- Nonstrict code-point order on strings, the model of a nonpositive
localeCompare result. -/
def strLeb (a b : String) : Bool := !(strLtb b a)

/-- Sort key of the byStatus rows: group name of the status (ZZZ when
ungrouped) then status name; locale comparison is modelled by code-point
string order. -/
def distSortLE (g2m : List (String × String)) (a b : String × String) : Prop :=
  let ka := ((lookupAssoc g2m a.1).getD "ZZZ", a.2)
  let kb := ((lookupAssoc g2m b.1).getD "ZZZ", b.2)
  strLtb ka.1 kb.1 = true ∨ (ka.1 = kb.1 ∧ strLeb ka.2 kb.2 = true)

instance (g2m : List (String × String)) : DecidableRel (distSortLE g2m) := fun _ _ =>
  inferInstanceAs (Decidable (_ ∨ _))

/-- Relation used to sort byStatus distribution rows. -/
def statusDistLE (g2m : List (String × String)) (a b : StatusDistEntry) : Prop :=
  distSortLE g2m (a.id, a.name) (b.id, b.name)

instance (g2m : List (String × String)) : DecidableRel (statusDistLE g2m) := fun _ _ =>
  inferInstanceAs (Decidable (distSortLE g2m _ _))

/-- Embedding of calculateDistributionDetailed. -/
def calculateDistributionDetailed (issues : List Issue) (masterMap : List (String × String))
    (statusToGroupMap : List (String × String)) (groupNames : List String) : DistributionResult :=
  let init : List (String × String × Nat) := masterMap.map (fun p => (p.1, p.2, 0))
  let counters := issues.foldl (fun cs issue =>
    match issue.fields.status.bind (fun s => s.id) with
    | some sid => if hasCounterKey cs sid then bumpStatusCounter cs sid else cs
    | none => cs) init
  let totalIssues := issues.length
  let byStatus :=
    List.insertionSort (statusDistLE statusToGroupMap)
      ((counters.map (fun p =>
        { id := p.1, name := p.2.1, count := p.2.2
          percentage := if totalIssues > 0 then ((p.2.2 : ℚ) / totalIssues) * 100 else 0
          : StatusDistEntry })).filter
        (fun s => s.count > 0 || hasKey statusToGroupMap s.id))
  let groupCounters := byStatus.foldl (fun gcs s =>
    match lookupAssoc statusToGroupMap s.id with
    | some gn => if hasKey gcs gn then
        (match lookupAssoc gcs gn with
         | some c => insertAssoc gn (c + s.count) gcs
         | none => gcs)
      else gcs
    | none => gcs) (groupNames.map (fun n => (n, (0 : Nat))))
  let byGroup := groupCounters.map (fun p =>
    { name := p.1, count := p.2
      percentage := if totalIssues > 0 then ((p.2 : ℚ) / totalIssues) * 100 else 0
      : GroupDistEntry })
  { byStatus := byStatus, byGroup := byGroup }

/-- Row of timeInStatus.byStatus. -/
structure StatusTimeEntry where
  id : String
  name : String
  totalMs : Int
  totalHours : ℚ
  totalDays : ℚ
  avgHours : ℚ
  avgDays : ℚ
  deriving DecidableEq, Repr

/-- Row of timeInStatus.byGroup. -/
structure GroupTimeEntry where
  groupName : String
  totalMs : Int
  totalHours : ℚ
  totalDays : ℚ
  avgHours : ℚ
  avgDays : ℚ
  deriving DecidableEq, Repr

/-- Result of calculateTimeInStatusDetailed. -/
structure TimeInStatusResult where
  byStatus : List StatusTimeEntry
  byGroup : List GroupTimeEntry
  deriving DecidableEq, Repr

/-- Add a duration to one key of the per-status time table. -/
def addTimeAssoc (m : List (String × String × Int)) (k : String) (d : Int) :
    List (String × String × Int) :=
  match m with
  | [] => []
  | (k', nm, v) :: rest =>
    if k' = k then (k', nm, v + d) :: rest else (k', nm, v) :: addTimeAssoc rest k d

/-- The per-timeline interval walk of calculateTimeInStatusDetailed: the end
of each interval is the next event, the end of the last interval is now. -/
def walkTimeline (now : Int) : List (String × String × Int) → List TimelineEvent →
    List (String × String × Int)
  | ms, [] => ms
  | ms, e :: rest =>
    let endTs := match rest with
      | e2 :: _ => e2.timestamp
      | [] => now
    let ms' :=
      if hasCounterKey ms e.statusId then
        let d := getDurationMs e.timestamp endTs
        if d > 0 then addTimeAssoc ms e.statusId d else ms
      else ms
    walkTimeline now ms' rest

/-- Relation used to sort byStatus time rows. -/
def statusTimeLE (g2m : List (String × String)) (a b : StatusTimeEntry) : Prop :=
  distSortLE g2m (a.id, a.name) (b.id, b.name)

instance (g2m : List (String × String)) : DecidableRel (statusTimeLE g2m) := fun _ _ =>
  inferInstanceAs (Decidable (distSortLE g2m _ _))

/-- Row construction of the byStatus time table. -/
def mkStatusTimeEntry (totalIssues : Nat) (p : String × String × Int) : StatusTimeEntry :=
  let v : Int := p.2.2
  { id := p.1, name := p.2.1, totalMs := v
    totalHours := if v > 0 then (v : ℚ) / (1000 * 60 * 60) else 0
    totalDays := if v > 0 then (v : ℚ) / (1000 * 60 * 60 * 24) else 0
    avgHours :=
      if totalIssues > 0 ∧ v > 0 then ((v : ℚ) / (1000 * 60 * 60)) / (totalIssues : ℚ) else 0
    avgDays :=
      if totalIssues > 0 ∧ v > 0 then ((v : ℚ) / (1000 * 60 * 60 * 24)) / (totalIssues : ℚ)
      else 0 }

/-- Row construction of the byGroup time table. -/
def mkGroupTimeEntry (totalIssues : Nat) (p : String × Int) : GroupTimeEntry :=
  let v : Int := p.2
  { groupName := p.1, totalMs := v
    totalHours := if v > 0 then (v : ℚ) / (1000 * 60 * 60) else 0
    totalDays := if v > 0 then (v : ℚ) / (1000 * 60 * 60 * 24) else 0
    avgHours :=
      if totalIssues > 0 ∧ v > 0 then ((v : ℚ) / (1000 * 60 * 60)) / (totalIssues : ℚ) else 0
    avgDays :=
      if totalIssues > 0 ∧ v > 0 then ((v : ℚ) / (1000 * 60 * 60 * 24)) / (totalIssues : ℚ)
      else 0 }

/-- The accumulated per-status milliseconds over all timelines, starting from
the zero-initialised master table. -/
def timeTableOf (allIssueTimelines : List IssueTimeline) (masterMap : List (String × String))
    (now : Int) : List (String × String × Int) :=
  allIssueTimelines.foldl (fun ms itl => walkTimeline now ms itl.timeline)
    (masterMap.map (fun p => (p.1, p.2, (0 : Int))))

/-- The byStatus rows: build, filter to rows with time or a group, sort. -/
def timeByStatusOf (timeTable : List (String × String × Int))
    (statusToGroupMap : List (String × String)) (totalIssues : Nat) : List StatusTimeEntry :=
  List.insertionSort (statusTimeLE statusToGroupMap)
    ((timeTable.map (mkStatusTimeEntry totalIssues)).filter
      (fun s => s.totalMs > 0 || hasKey statusToGroupMap s.id))

/-- One step of the byGroup aggregation fold of calculateTimeInStatusDetailed. -/
def timeByGroupStep (statusToGroupMap : List (String × String)) (gms : List (String × Int))
    (s : StatusTimeEntry) : List (String × Int) :=
  match lookupAssoc statusToGroupMap s.id with
  | some gn =>
    match lookupAssoc gms gn with
    | some v => insertAssoc gn (v + s.totalMs) gms
    | none => gms
  | none => gms

/-- Embedding of calculateTimeInStatusDetailed. -/
def calculateTimeInStatusDetailed (allIssueTimelines : List IssueTimeline)
    (masterMap : List (String × String)) (statusToGroupMap : List (String × String))
    (groupNames : List String) (now : Int) : TimeInStatusResult :=
  let timeTable := timeTableOf allIssueTimelines masterMap now
  let totalIssues := allIssueTimelines.length
  let byStatus := timeByStatusOf timeTable statusToGroupMap totalIssues
  let groupMs := byStatus.foldl (timeByGroupStep statusToGroupMap)
    (groupNames.map (fun n => (n, (0 : Int))))
  { byStatus := byStatus, byGroup := groupMs.map (mkGroupTimeEntry totalIssues) }

/-- Result of processCycleTime; a histogram row is (lo, hi, count) and stands
for the source label string "lo-hi days". -/
structure CycleTimeResult where
  durations : List ℚ
  histogram : List (ℚ × ℚ × Nat)
  avg : ℚ
  p50 : ℚ
  p85 : ℚ
  deriving DecidableEq, Repr

/-- The zeroed cycle-time structure the source returns when the selectors do
not resolve or no issue completed. -/
def defaultCycleResult : CycleTimeResult :=
  { durations := [], histogram := [], avg := 0, p50 := 0, p85 := 0 }

/-- Adaptive histogram bucket width of processCycleTime. -/
def bucketSizeOf (maxDuration : ℚ) : ℚ :=
  if maxDuration > 100 then 10
  else if maxDuration > 20 then 2
  else if maxDuration > 10 then 1
  else if maxDuration > 1 then 1/2
  else 1/10

/-- Increment-or-append on the histogram bucket table keyed by bucket start. -/
def bumpBucket (bs : List (ℚ × Nat)) (k : ℚ) : List (ℚ × Nat) :=
  match bs with
  | [] => [(k, 1)]
  | (k', c) :: rest => if k' = k then (k', c + 1) :: rest else (k', c) :: bumpBucket rest k

/-- Ordering of histogram rows by their lower bound, the model of the
parseFloat sort of the source. -/
def histRowLE (a b : ℚ × ℚ × Nat) : Prop := a.1 ≤ b.1

instance : DecidableRel histRowLE := fun a b =>
  inferInstanceAs (Decidable (a.1 ≤ b.1))

/-- The per-issue cycle duration of processCycleTime: first event in the
start set, then first event in the end set at or after it. -/
def cycleDuration (startIds endIds : List String) (itl : IssueTimeline) : Option ℚ :=
  match itl.timeline.find? (fun e => decide (e.statusId ∈ startIds)) with
  | none => none
  | some s =>
    match itl.timeline.find? (fun e => decide (e.statusId ∈ endIds ∧ s.timestamp ≤ e.timestamp)) with
    | none => none
    | some en =>
      let d := getDuration s.timestamp en.timestamp "days"
      if d ≥ 0 then some d else none

/-- Embedding of processCycleTime. -/
def processCycleTime (allIssueTimelines : List IssueTimeline)
    (cycleStartConfig cycleEndConfig : Option FlowConfig) (statusGroups : List StatusGroup)
    (statusMasterMap : List (String × String)) : CycleTimeResult :=
  let startStatusIds := getStatusIdsFromConfig cycleStartConfig statusGroups statusMasterMap
  let endStatusIds := getStatusIdsFromConfig cycleEndConfig statusGroups statusMasterMap
  if startStatusIds = [] ∨ endStatusIds = [] then defaultCycleResult
  else
    let durationsDays := allIssueTimelines.filterMap (cycleDuration startStatusIds endStatusIds)
    if durationsDays = [] then defaultCycleResult
    else
      let sorted := List.insertionSort (· ≤ ·) durationsDays
      let maxDuration := sorted.foldl max 0
      let bucketSize := bucketSizeOf maxDuration
      let buckets := sorted.foldl (fun bs d => bumpBucket bs (⌊d / bucketSize⌋ * bucketSize)) []
      let histogram := List.insertionSort histRowLE
        (buckets.map (fun p => (p.1, p.1 + bucketSize, p.2)))
      { durations := sorted, histogram := histogram
        avg := listSum sorted / (sorted.length : ℚ)
        p50 := getPercentile sorted 50
        p85 := getPercentile sorted 85 }

/-- Embedding of processThroughput over day numbers: one (day, count) row per
calendar day of the range, counting first completions on that day. -/
def processThroughput (allIssueTimelines : List IssueTimeline)
    (cycleEndConfig : Option FlowConfig) (startDateStr endDateStr : Option Int)
    (statusGroups : List StatusGroup) (statusMasterMap : List (String × String)) :
    List (Int × Nat) :=
  let endStatusIds := getStatusIdsFromConfig cycleEndConfig statusGroups statusMasterMap
  if endStatusIds = [] ∨ startDateStr = none ∨ endDateStr = none then []
  else
    let completionTimestamps := allIssueTimelines.filterMap (fun itl =>
      (itl.timeline.find? (fun e => decide (e.statusId ∈ endStatusIds))).map
        (fun e => e.timestamp))
    let dateRange := getDateRange startDateStr endDateStr
    if dateRange = [] then []
    else dateRange.map (fun day =>
      (day, completionTimestamps.countP (fun ts => decide (dayOf ts = day))))

/-- One CFD snapshot row: the day plus the per-group population counts in
group order. -/
structure CFDRow where
  date : Int
  counts : List (String × Nat)
  deriving DecidableEq, Repr

/-- The status occupied at an instant: the last timeline entry, in array
order, whose timestamp is at or before the instant. -/
def statusIdOnDate (timeline : List TimelineEvent) (snapshot : Int) : Option String :=
  (timeline.reverse.find? (fun e => decide (e.timestamp ≤ snapshot))).map
    (fun e => e.statusId)

/-- Increment one group counter of a CFD snapshot when the group is present. -/
def bumpGroupCount (row : List (String × Nat)) (g : String) : List (String × Nat) :=
  match row with
  | [] => []
  | (k, c) :: rest => if k = g then (k, c + 1) :: rest else (k, c) :: bumpGroupCount rest g

/-- Embedding of processCFD. -/
def processCFD (allIssueTimelines : List IssueTimeline) (groupOrder : List String)
    (statusToGroupMap : List (String × String)) (startDateStr endDateStr : Option Int) :
    List CFDRow :=
  if startDateStr = none ∨ endDateStr = none then []
  else
    let dateRange := getDateRange startDateStr endDateStr
    if dateRange = [] then []
    else dateRange.map (fun dayStr =>
      let snapshotTimestamp : Int := dayStr * 86400000 + 86399999
      let counts := allIssueTimelines.foldl (fun row itl =>
        match truthy (statusIdOnDate itl.timeline snapshotTimestamp) with
        | some sid =>
          match truthy (lookupAssoc statusToGroupMap sid) with
          | some g => if hasKey row g then bumpGroupCount row g else row
          | none => row
        | none => row) (groupOrder.map (fun g => (g, (0 : Nat))))
      { date := dayStr, counts := counts })

/-- Result of processSupportMetrics. -/
structure SupportMetrics where
  avgMttaHours : ℚ
  avgMttrHours : ℚ
  deriving DecidableEq, Repr

/-- The acknowledgement duration of one timeline: the first event after
index 0 whose status is outside the triage set is the acknowledgement. -/
def mttaDurationOf (triageStatusIds : List String) (itl : IssueTimeline) : Option ℚ :=
  match itl.timeline with
  | [] => none
  | createdEvent :: rest =>
    match rest.find? (fun e => decide (¬ e.statusId ∈ triageStatusIds)) with
    | some ackEvent =>
      let d := getDuration createdEvent.timestamp ackEvent.timestamp "hours"
      if d ≥ 0 then some d else none
    | none => none

/-- The resolution duration of one timeline: the first event, the creation
entry included, whose status is in the end set is the resolution. -/
def mttrDurationOf (endStatusIds : List String) (itl : IssueTimeline) : Option ℚ :=
  match itl.timeline with
  | [] => none
  | createdEvent :: rest =>
    match (createdEvent :: rest).find? (fun e => decide (e.statusId ∈ endStatusIds)) with
    | some resolveEvent =>
      let d := getDuration createdEvent.timestamp resolveEvent.timestamp "hours"
      if d ≥ 0 then some d else none
    | none => none

/-- The acknowledgement durations collected by processSupportMetrics. -/
def supportMttaDurations (triageStatusIds : List String) (tls : List IssueTimeline) : List ℚ :=
  tls.filterMap (mttaDurationOf triageStatusIds)

/-- The resolution durations collected by processSupportMetrics. -/
def supportMttrDurations (endStatusIds : List String) (tls : List IssueTimeline) : List ℚ :=
  tls.filterMap (mttrDurationOf endStatusIds)

/-- Embedding of processSupportMetrics. -/
def processSupportMetrics (allIssueTimelines : List IssueTimeline)
    (triageConfig cycleEndConfig : Option FlowConfig) (statusGroups : List StatusGroup)
    (statusMasterMap : List (String × String)) : SupportMetrics :=
  let triageStatusIds := getStatusIdsFromConfig triageConfig statusGroups statusMasterMap
  let endStatusIds := getStatusIdsFromConfig cycleEndConfig statusGroups statusMasterMap
  if triageStatusIds = [] ∨ endStatusIds = [] then { avgMttaHours := 0, avgMttrHours := 0 }
  else
    let mtta := supportMttaDurations triageStatusIds allIssueTimelines
    let mttr := supportMttrDurations endStatusIds allIssueTimelines
    { avgMttaHours := if mtta = [] then 0 else listSum mtta / (mtta.length : ℚ)
      avgMttrHours := if mttr = [] then 0 else listSum mttr / (mttr.length : ℚ) }

/-- Result of calculateSummaryStats. -/
structure SummaryStats where
  totalIssues : Nat
  avgCycleTime : ℚ
  p85CycleTime : ℚ
  p50CycleTime : ℚ
  currentWIP : Nat
  avgMttaHours : ℚ
  avgMttrHours : ℚ
  deriving DecidableEq, Repr

/-- Embedding of calculateSummaryStats. Note the source resolves all three
selector configs against an empty group list here, not against the
configured status groups; the or-zero fallbacks on the copied averages are
identities in this model. -/
def calculateSummaryStats (issues : List Issue) (statusMasterMap : List (String × String))
    (statusToGroupMap : List (String × String)) (cycleTimeData : CycleTimeResult)
    (groupOrder : List String) (cycleStartConfig cycleEndConfig : Option FlowConfig)
    (supportMetrics : SupportMetrics) (triageConfig : Option FlowConfig) : SummaryStats :=
  let startStatusIds := getStatusIdsFromConfig cycleStartConfig [] statusMasterMap
  let endStatusIds := getStatusIdsFromConfig cycleEndConfig [] statusMasterMap
  let triageStatusIds := getStatusIdsFromConfig triageConfig [] statusMasterMap
  let wipStatusIds := statusMasterMap.foldl (fun acc p =>
    if decide (¬ p.1 ∈ startStatusIds) && decide (¬ p.1 ∈ endStatusIds)
        && decide (¬ p.1 ∈ triageStatusIds)
    then addSet acc p.1 else acc) []
  let currentWIP := issues.countP (fun i =>
    match i.fields.status.bind (fun s => s.id) with
    | some sid => decide (sid ∈ wipStatusIds)
    | none => false)
  { totalIssues := issues.length
    avgCycleTime := cycleTimeData.avg
    p85CycleTime := cycleTimeData.p85
    p50CycleTime := cycleTimeData.p50
    currentWIP := currentWIP
    avgMttaHours := supportMetrics.avgMttaHours
    avgMttrHours := supportMetrics.avgMttrHours }

/-- The combined result object of processMetrics. -/
structure MetricsResult where
  distribution : DistributionResult
  timeInStatus : TimeInStatusResult
  cycleTimeData : CycleTimeResult
  throughputData : List (Int × Nat)
  cfdData : List CFDRow
  summaryStats : SummaryStats
  supportMetrics : SupportMetrics
  statusToGroupMap : List (String × String)
  statusMasterMap : List (String × String)
  deriving DecidableEq, Repr

/-- Embedding of the orchestrator processMetrics. The now instant that the
source reads from the clock while closing open intervals is an explicit
argument. Arguments the source checks with Array.isArray are options: none
stands for any non-array value. -/
def processMetrics (issues : Option (List Issue)) (statusGroups : Option (List StatusGroup))
    (startDate endDate : Option Int)
    (cycleStartConfig cycleEndConfig triageConfig : Option FlowConfig)
    (allStatuses : Option (List Status)) (now : Int) : Option MetricsResult :=
  match issues with
  | none => none
  | some issueList =>
    if issueList = [] then none
    else
      match statusGroups with
      | none => none
      | some groups =>
        match allStatuses with
        | none => none
        | some statuses =>
          if statuses = [] then none
          else
            let statusMasterMap := buildStatusMasterMap statuses
            let groupOrder := buildGroupOrder groups
            let statusToGroupMap := buildStatusToGroupMap groups statusMasterMap
            let allIssueTimelines :=
              issueList.filterMap (fun i => buildIssueTimelineByStatus i statusMasterMap)
            let timeInStatusResult :=
              calculateTimeInStatusDetailed allIssueTimelines statusMasterMap statusToGroupMap
                groupOrder now
            let distributionResult :=
              calculateDistributionDetailed issueList statusMasterMap statusToGroupMap groupOrder
            let cycleTimeData :=
              processCycleTime allIssueTimelines cycleStartConfig cycleEndConfig groups
                statusMasterMap
            let throughputData :=
              processThroughput allIssueTimelines cycleEndConfig startDate endDate groups
                statusMasterMap
            let cfdData :=
              processCFD allIssueTimelines groupOrder statusToGroupMap startDate endDate
            let supportMetrics :=
              processSupportMetrics allIssueTimelines triageConfig cycleEndConfig groups
                statusMasterMap
            let summaryStats :=
              calculateSummaryStats issueList statusMasterMap statusToGroupMap cycleTimeData
                groupOrder cycleStartConfig cycleEndConfig supportMetrics triageConfig
            some { distribution := distributionResult
                   timeInStatus := timeInStatusResult
                   cycleTimeData := cycleTimeData
                   throughputData := throughputData
                   cfdData := cfdData
                   summaryStats := summaryStats
                   supportMetrics := supportMetrics
                   statusToGroupMap := statusToGroupMap
                   statusMasterMap := statusMasterMap }

/-!
Specification-side definitions, written from the specification text so they
can be compared with the source embedding above.
-/

/-- Item filter as the specification words it: field is status and the old
and the new value are both present. -/
def itemKeepOldNew (item : HistoryItem) : Bool :=
  item.field = "status" && item.fromVal.isSome && item.toVal.isSome

/-- Status-change extraction as claimed: keep audit entries whose old and new
values are both present, skip entries with a missing timestamp, sort
ascending by timestamp. -/
def specChangesOldNew (histories : List History) : List StatusChange :=
  List.insertionSort changeLE
    ((histories.map (fun h =>
      match h.items with
      | none => []
      | some items => items.filterMap (fun item =>
          match h.created with
          | none => none
          | some ts =>
            if itemKeepOldNew item then
              some ⟨ts, strOfOptVal item.fromVal, strOfOptVal item.toVal⟩
            else none))).flatten)

/-- The multiset of audit entries the extraction keeps, as one comprehension:
entries of timestamped histories whose field is status and whose old value
and old display string are both present. -/
def specKeptChanges (histories : List History) : List StatusChange :=
  (histories.map (fun h =>
    match h.created with
    | none => []
    | some ts =>
      (h.items.getD []).filterMap (fun item =>
        if item.field = "status" ∧ item.fromVal ≠ none ∧ item.fromStringVal ≠ none then
          some ⟨ts, strOfOptVal item.fromVal, strOfOptVal item.toVal⟩
        else none))).flatten

/-- WIP status-id set as the specification words it: the status universe
minus the union of the three selector resolutions, with the group list the
resolver is given left as a parameter. -/
def wipStatusIdsSpec (master : List (String × String)) (resolveGroups : List StatusGroup)
    (cs ce tc : Option FlowConfig) : List String :=
  (master.map Prod.fst).filter (fun sid =>
    decide (¬ (sid ∈ getStatusIdsFromConfig tc resolveGroups master ∨
               sid ∈ getStatusIdsFromConfig cs resolveGroups master ∨
               sid ∈ getStatusIdsFromConfig ce resolveGroups master)))

/-- Current WIP as the specification words it: issues whose current status id
lies in the WIP set. -/
def wipCountSpec (issues : List Issue) (master : List (String × String))
    (resolveGroups : List StatusGroup) (cs ce tc : Option FlowConfig) : Nat :=
  issues.countP (fun i =>
    match i.fields.status.bind (fun s => s.id) with
    | some sid => decide (sid ∈ wipStatusIdsSpec master resolveGroups cs ce tc)
    | none => false)

/-- The last configured group, in configuration order, that is valid, lists
the status and whose member exists in the universe. -/
def specLastGroup (groups : List StatusGroup) (master : List (String × String))
    (sid : String) : Option String :=
  match groups with
  | [] => none
  | g :: rest =>
    match specLastGroup rest master sid with
    | some n => some n
    | none =>
      if groupValid g && decide (sid ∈ g.statuses) && hasKey master sid then some g.name
      else none

/-- A selector argument is falsy when it is absent or its value is empty. -/
def falsyValue : Option FlowConfig → Bool
  | none => true
  | some c => c.value = ""

/-- Nondecreasing-timestamp order on timeline events. -/
def eventLE (a b : TimelineEvent) : Prop := a.timestamp ≤ b.timestamp

instance : DecidableRel eventLE := fun a b =>
  inferInstanceAs (Decidable (a.timestamp ≤ b.timestamp))

/-!
Concrete fixtures shared by counterexamples and witnesses.
-/

/-- Status 1 of the fixture universe. -/
def stFix1 : Status := { id := some "1", name := some "S1" }

/-- Status 2 of the fixture universe. -/
def stFix2 : Status := { id := some "2", name := some "S2" }

/-- The fixture master map over statuses 1 and 2. -/
def masterFix : List (String × String) := buildStatusMasterMap [stFix1, stFix2]

/-- An issue currently in status 1 with no changelog. -/
def issueFix1 : Issue :=
  { key := "I1", fields := { created := some 0, status := some { id := some "1" } }
    changelog := none }

/-- A group named G holding status 1. -/
def groupFixG : StatusGroup := { name := "G", statuses := ["1"] }

/-- A group-type selector naming G. -/
def cfgGroupG : FlowConfig := { type := "group", value := "G" }

/-- A status-type selector naming status 2. -/
def cfgStatus2 : FlowConfig := { type := "status", value := "2" }

/-- First of two groups sharing status 1. -/
def groupFixA : StatusGroup := { name := "A", statuses := ["1"] }

/-- Second of two groups sharing status 1. -/
def groupFixB : StatusGroup := { name := "B", statuses := ["1"] }

/-- An issue whose only audit event is timestamped before its creation. -/
def issueFixBack : Issue :=
  { key := "X", fields := { created := some 100, status := some { id := some "2" } }
    changelog := some [ { created := some 50
                          items := some [ { field := "status", fromVal := some "1"
                                            fromStringVal := some "A", toVal := some "2" } ] } ] }

/-- A history whose only status item lacks the old display string. -/
def histFixNoFromString : History :=
  { created := some 10
    items := some [ { field := "status", fromVal := some "1"
                      fromStringVal := none, toVal := some "2" } ] }

/-- A group covering both fixture statuses. -/
def groupFixBoth : StatusGroup := { name := "G", statuses := ["1", "2"] }

/-- An issue created at 0 in status 1 that moved to status 2 at 40. -/
def issueFixFwd : Issue :=
  { key := "F", fields := { created := some 0, status := some { id := some "2" } }
    changelog := some [ { created := some 40
                          items := some [ { field := "status", fromVal := some "1"
                                            fromStringVal := some "S1", toVal := some "2" } ] } ] }

/-!
Helper lemmas about the Map and Set models.
-/

theorem lookupAssoc_insertAssoc (k : String) (v : α) (m : List (String × α)) (k' : String) :
    lookupAssoc (insertAssoc k v m) k' = if k = k' then some v else lookupAssoc m k' := by
  induction m with
  | nil => simp [insertAssoc, lookupAssoc]
  | cons p rest ih =>
    obtain ⟨pk, pv⟩ := p
    simp only [insertAssoc]
    by_cases h1 : pk = k
    · subst h1
      simp only [if_pos rfl, lookupAssoc]
      by_cases h2 : pk = k' <;> simp [h2]
    · simp only [if_neg h1, lookupAssoc, ih]
      by_cases h2 : pk = k'
      · have hk : k ≠ k' := fun he => h1 (h2.trans he.symm)
        simp [h2, hk]
      · simp [h2]

theorem hasKey_insertAssoc (k : String) (v : α) (m : List (String × α)) (k' : String) :
    hasKey (insertAssoc k v m) k' = (decide (k = k') || hasKey m k') := by
  simp only [hasKey, lookupAssoc_insertAssoc]
  by_cases h : k = k' <;> simp [h]

theorem mem_addSet (s : List String) (x y : String) :
    y ∈ addSet s x ↔ y ∈ s ∨ y = x := by
  simp only [addSet]
  by_cases h : x ∈ s
  · simp only [if_pos h]
    constructor
    · exact Or.inl
    · rintro (hy | rfl)
      · exact hy
      · exact h
  · simp [if_neg h]

theorem mem_foldl_addSet (κ : α → String) (P : String → Bool) (l : List α) :
    ∀ (init : List String) (x : String),
      x ∈ l.foldl (fun acc a => if P (κ a) then addSet acc (κ a) else acc) init ↔
        x ∈ init ∨ ((∃ a ∈ l, κ a = x) ∧ P x = true) := by
  induction l with
  | nil => simp
  | cons a l ih =>
    intro init x
    simp only [List.foldl_cons]
    rw [ih]
    by_cases hP : P (κ a)
    · simp only [if_pos hP, mem_addSet]
      constructor
      · rintro ((hx | rfl) | ⟨⟨b, hb, rfl⟩, hPx⟩)
        · exact Or.inl hx
        · exact Or.inr ⟨⟨a, by simp, rfl⟩, hP⟩
        · exact Or.inr ⟨⟨b, by simp [hb], rfl⟩, hPx⟩
      · rintro (hx | ⟨⟨b, hb, rfl⟩, hPx⟩)
        · exact Or.inl (Or.inl hx)
        · rcases List.mem_cons.mp hb with rfl | hb'
          · exact Or.inl (Or.inr rfl)
          · exact Or.inr ⟨⟨b, hb', rfl⟩, hPx⟩
    · simp only [if_neg hP]
      constructor
      · rintro (hx | ⟨⟨b, hb, rfl⟩, hPx⟩)
        · exact Or.inl hx
        · exact Or.inr ⟨⟨b, by simp [hb], rfl⟩, hPx⟩
      · rintro (hx | ⟨⟨b, hb, rfl⟩, hPx⟩)
        · exact Or.inl hx
        · rcases List.mem_cons.mp hb with rfl | hb'
          · exact absurd hPx (by simpa using hP)
          · exact Or.inr ⟨⟨b, hb', rfl⟩, hPx⟩

theorem mem_resolveFold (master : List (String × String)) (statuses : List String)
    (init : List String) (x : String) :
    x ∈ statuses.foldl (fun ids id => if hasKey master id then addSet ids id else ids) init ↔
      x ∈ init ∨ (x ∈ statuses ∧ hasKey master x = true) := by
  have h := mem_foldl_addSet (fun a : String => a) (fun id => hasKey master id) statuses init x
  simpa using h

theorem mem_wipFold (master : List (String × String)) (s e t : List String) (x : String) :
    x ∈ master.foldl (fun acc p =>
        if decide (¬ p.1 ∈ s) && decide (¬ p.1 ∈ e) && decide (¬ p.1 ∈ t)
        then addSet acc p.1 else acc) [] ↔
      (∃ p ∈ master, p.1 = x) ∧ (¬ x ∈ s ∧ ¬ x ∈ e ∧ ¬ x ∈ t) := by
  have h := mem_foldl_addSet (Prod.fst)
    (fun sid => decide (¬ sid ∈ s) && decide (¬ sid ∈ e) && decide (¬ sid ∈ t)) master [] x
  simpa [Bool.and_eq_true, decide_eq_true_eq, and_assoc] using h

/-- A fixture status-type selector naming status 1. -/
def cfgStatus1 : FlowConfig := { type := "status", value := "1" }

/-!
Claim theorems.
-/

/-- C6: for every selector config, group list and status universe the
resolver is total (the embedding is a Lean function, so it cannot throw) and
returns exactly: the empty set for a falsy value; for a status selector the
singleton of the value when it exists in the universe, else empty; for a
group selector the member ids of the first group of that name that exist in
the universe, else empty; unknown types also give the empty set, which the
membership equivalence below captures by making both disjuncts fail. -/
theorem resolver_membership_spec (config : Option FlowConfig) (groups : List StatusGroup)
    (master : List (String × String)) (s : String) :
    s ∈ getStatusIdsFromConfig config groups master ↔
      ∃ cfg, config = some cfg ∧ cfg.value ≠ "" ∧
        ((cfg.type = "group" ∧ ∃ g, groups.find? (fun g' => g'.name = cfg.value) = some g ∧
            s ∈ g.statuses ∧ hasKey master s = true) ∨
         (cfg.type = "status" ∧ s = cfg.value ∧ hasKey master s = true)) := by
  cases config with
  | none => simp [getStatusIdsFromConfig]
  | some cfg =>
    simp only [getStatusIdsFromConfig, Option.some.injEq]
    by_cases hv : cfg.value = ""
    · simp [hv]
    · simp only [if_neg hv]
      by_cases ht : cfg.type = "group"
      · simp only [if_pos ht]
        cases hf : groups.find? (fun g' => g'.name = cfg.value) with
        | none =>
          have hts : cfg.type ≠ "status" := by rw [ht]; decide
          simp [hf, ht, hts, hv]
        | some g =>
          rw [mem_resolveFold]
          have hts : cfg.type ≠ "status" := by rw [ht]; decide
          simp [hf, ht, hts, hv]
      · simp only [if_neg ht]
        by_cases ht2 : cfg.type = "status"
        · simp only [if_pos ht2]
          by_cases hk : hasKey master cfg.value = true
          · rw [if_pos hk]
            constructor
            · intro hs
              have hsv : s = cfg.value := by simpa using hs
              exact ⟨cfg, rfl, hv, Or.inr ⟨ht2, hsv, hsv ▸ hk⟩⟩
            · rintro ⟨c, hc, _, (⟨hg, _⟩ | ⟨_, hsv, _⟩)⟩
              · cases hc; exact absurd hg ht
              · cases hc; simp [hsv]
          · rw [if_neg hk]
            constructor
            · intro hs
              exact absurd hs (List.not_mem_nil s)
            · rintro ⟨c, hc, _, (⟨hg, _⟩ | ⟨_, hsv, hkk⟩)⟩
              · cases hc; exact absurd hg ht
              · cases hc; exact absurd (hsv ▸ hkk) hk
        · simp [ht, ht2, hv]

/-- C8: getPercentile implements the nearest-rank method: on a non-empty
array it returns the element at index ceil(p/100 times n) minus 1 clamped to
at least 0 (shown in bounds via List.get); on [1,2,3,4,5] the 50th
percentile is 3; on the empty array every percentile is 0. -/
theorem percentile_nearest_rank (l : List ℚ) (p : ℚ) (hl : l ≠ []) (hp1 : p ≤ 100) :
    (∃ hidx : (max 0 (⌈p / 100 * l.length⌉ - 1)).toNat < l.length,
        getPercentile l p = l.get ⟨(max 0 (⌈p / 100 * l.length⌉ - 1)).toNat, hidx⟩) ∧
    getPercentile [1, 2, 3, 4, 5] 50 = 3 ∧ (∀ q : ℚ, getPercentile [] q = 0) := by
  refine ⟨?_, ?_, ?_⟩
  · have hlen : l.length ≠ 0 := fun h => hl (List.length_eq_zero.mp h)
    have hceil : (⌈p / 100 * l.length⌉ : Int) ≤ l.length := by
      have hn : (0 : ℚ) ≤ l.length := by positivity
      have h2 : p / 100 * l.length ≤ (l.length : ℚ) := by nlinarith
      exact Int.ceil_le.mpr h2
    have hidx : (max 0 (⌈p / 100 * l.length⌉ - 1)).toNat < l.length := by
      rw [Int.toNat_lt' hlen]
      omega
    refine ⟨hidx, ?_⟩
    simp only [getPercentile, if_neg hl]
    simp [List.getD_eq_getElem?_getD, List.getElem?_eq_getElem hidx]
  · have hc : (⌈(50 : ℚ) / 100 * (5 : ℚ)⌉ : Int) = 3 := by norm_num [Int.ceil_eq_iff]
    simp [getPercentile, hc]
  · intro q
    simp [getPercentile]

/-- Witness for C8 at the concrete array [1,2,3,4,5] and percentile 50. -/
theorem percentile_nearest_rank_witness :
    (∃ hidx : (max 0 (⌈(50 : ℚ) / 100 * ([(1 : ℚ), 2, 3, 4, 5] : List ℚ).length⌉ - 1)).toNat <
        ([(1 : ℚ), 2, 3, 4, 5] : List ℚ).length,
      getPercentile [1, 2, 3, 4, 5] 50 =
        ([(1 : ℚ), 2, 3, 4, 5] : List ℚ).get
          ⟨(max 0 (⌈(50 : ℚ) / 100 * ([(1 : ℚ), 2, 3, 4, 5] : List ℚ).length⌉ - 1)).toNat, hidx⟩) ∧
    getPercentile [1, 2, 3, 4, 5] 50 = 3 ∧ (∀ q : ℚ, getPercentile [] q = 0) :=
  percentile_nearest_rank [1, 2, 3, 4, 5] 50 (by simp) (by norm_num)

/-- C9: the orchestrator is deterministic; with all inputs, the injected now
instant included, passed explicitly, two calls on equal arguments give equal
results, and the embedding threads no other state. -/
theorem process_metrics_deterministic
    (i i' : Option (List Issue)) (g g' : Option (List StatusGroup))
    (sd sd' ed ed' : Option Int) (cs cs' ce ce' tc tc' : Option FlowConfig)
    (u u' : Option (List Status)) (n n' : Int)
    (h1 : i = i') (h2 : g = g') (h3 : sd = sd') (h4 : ed = ed') (h5 : cs = cs')
    (h6 : ce = ce') (h7 : tc = tc') (h8 : u = u') (h9 : n = n') :
    processMetrics i g sd ed cs ce tc u n = processMetrics i' g' sd' ed' cs' ce' tc' u' n' := by
  subst h1; subst h2; subst h3; subst h4; subst h5; subst h6; subst h7; subst h8; subst h9
  rfl

/-- Witness for C9 on a concrete repeated call. -/
theorem process_metrics_deterministic_witness :
    processMetrics (some [issueFix1]) (some [groupFixG]) none none (some cfgStatus2)
        (some cfgStatus2) (some cfgGroupG) (some [stFix1, stFix2]) 100 =
      processMetrics (some [issueFix1]) (some [groupFixG]) none none (some cfgStatus2)
        (some cfgStatus2) (some cfgGroupG) (some [stFix1, stFix2]) 100 :=
  process_metrics_deterministic _ _ _ _ _ _ _ _ _ _ _ _ _ _ _ _ _ _
    rfl rfl rfl rfl rfl rfl rfl rfl rfl

/-- C10: the MTTR search starts at the creation entry while the MTTA search
starts after it: an issue whose timeline starts in the resolved end set
contributes an MTTR duration of exactly 0 hours, in every position of the
batch, and it is counted in the average denominator; a one-event timeline
contributes no MTTA sample even when its only event is outside triage. -/
theorem mttr_counts_creation_entry
    (tcfg ecfg : Option FlowConfig) (groups : List StatusGroup)
    (master : List (String × String)) (k : String) (cur : Option String)
    (e : TimelineEvent) (rest : List TimelineEvent) (pre post : List IssueTimeline)
    (hend : e.statusId ∈ getStatusIdsFromConfig ecfg groups master)
    (htri : getStatusIdsFromConfig tcfg groups master ≠ []) :
    supportMttrDurations (getStatusIdsFromConfig ecfg groups master)
        (pre ++ ⟨k, e :: rest, cur⟩ :: post) =
      supportMttrDurations (getStatusIdsFromConfig ecfg groups master) pre ++
        0 :: supportMttrDurations (getStatusIdsFromConfig ecfg groups master) post ∧
    (processSupportMetrics [⟨k, e :: rest, cur⟩] tcfg ecfg groups master).avgMttrHours = 0 ∧
    supportMttaDurations (getStatusIdsFromConfig tcfg groups master) [⟨k, [e], cur⟩] = [] := by
  have hf : mttrDurationOf (getStatusIdsFromConfig ecfg groups master) ⟨k, e :: rest, cur⟩ =
      some 0 := by
    simp only [mttrDurationOf]
    rw [List.find?_cons_of_pos _ (by simpa using hend)]
    simp [getDuration]
  refine ⟨?_, ?_, ?_⟩
  · simp [supportMttrDurations, List.filterMap_append, hf]
  · have hne : getStatusIdsFromConfig ecfg groups master ≠ [] := List.ne_nil_of_mem hend
    simp only [processSupportMetrics]
    rw [if_neg (by simp [htri, hne])]
    simp [supportMttrDurations, hf, listSum]
  · simp [supportMttaDurations, mttaDurationOf]

/-- Witness for C10: a two-event timeline created directly in the resolved
end status 2, with triage resolving to status 1. -/
theorem mttr_counts_creation_entry_witness :
    supportMttrDurations (getStatusIdsFromConfig (some cfgStatus2) [] masterFix)
        ([] ++ ⟨"K", ⟨0, "2"⟩ :: [⟨50, "1"⟩], some "1"⟩ :: []) =
      supportMttrDurations (getStatusIdsFromConfig (some cfgStatus2) [] masterFix) [] ++
        0 :: supportMttrDurations (getStatusIdsFromConfig (some cfgStatus2) [] masterFix) [] ∧
    (processSupportMetrics [⟨"K", ⟨0, "2"⟩ :: [⟨50, "1"⟩], some "1"⟩] (some cfgStatus1)
        (some cfgStatus2) [] masterFix).avgMttrHours = 0 ∧
    supportMttaDurations (getStatusIdsFromConfig (some cfgStatus1) [] masterFix)
        [⟨"K", [⟨0, "2"⟩], some "1"⟩] = [] :=
  mttr_counts_creation_entry (some cfgStatus1) (some cfgStatus2) [] masterFix "K" (some "1")
    ⟨0, "2"⟩ [⟨50, "1"⟩] [] [] (by decide) (by decide)

theorem getDuration_ms_eq (startDate endDate : Int) :
    getDuration startDate endDate "ms" = ((getDurationMs startDate endDate : Int) : ℚ) := by
  simp only [getDuration, getDurationMs]
  by_cases h : endDate - startDate ≤ 0
  · simp [h]
  · simp [h]

theorem resolve_falsy (c : Option FlowConfig) (gs : List StatusGroup)
    (m : List (String × String)) (h : falsyValue c = true) :
    getStatusIdsFromConfig c gs m = [] := by
  cases c with
  | none => rfl
  | some cfg =>
    simp only [falsyValue, decide_eq_true_eq] at h
    simp [getStatusIdsFromConfig, h]

/-- C5 corrected: the orchestrator returns none exactly when issues is
missing/empty, statusGroups is missing (an empty group list is allowed), or
allStatuses is missing/empty; on any valid call a falsy selector degrades the
aggregates it feeds instead of failing: a falsy cycle-start zeroes cycle
time, a falsy triage zeroes the support metrics, a falsy cycle-end zeroes
cycle time, support metrics and throughput. -/
theorem process_metrics_null_iff_and_degrade
    (i : Option (List Issue)) (g : Option (List StatusGroup)) (sd ed : Option Int)
    (cs ce tc : Option FlowConfig) (u : Option (List Status)) (now : Int) :
    (processMetrics i g sd ed cs ce tc u now = none ↔
      (i = none ∨ i = some [] ∨ g = none ∨ u = none ∨ u = some [])) ∧
    (∀ r, processMetrics i g sd ed cs ce tc u now = some r →
      (falsyValue cs = true → r.cycleTimeData = defaultCycleResult) ∧
      (falsyValue tc = true → r.supportMetrics = { avgMttaHours := 0, avgMttrHours := 0 }) ∧
      (falsyValue ce = true →
        r.cycleTimeData = defaultCycleResult ∧
        r.supportMetrics = { avgMttaHours := 0, avgMttrHours := 0 } ∧
        r.throughputData = [])) := by
  constructor
  · cases i with
    | none => simp [processMetrics]
    | some il =>
      by_cases hil : il = []
      · subst hil
        simp [processMetrics]
      · cases g with
        | none => simp [processMetrics, hil]
        | some gl =>
          cases u with
          | none => simp [processMetrics, hil]
          | some ul =>
            by_cases hul : ul = []
            · subst hul
              simp [processMetrics, hil]
            · simp [processMetrics, hil, hul]
  · intro r hr
    cases i with
    | none => simp [processMetrics] at hr
    | some il =>
      by_cases hil : il = []
      · simp [processMetrics, hil] at hr
      · cases g with
        | none => simp [processMetrics, hil] at hr
        | some gl =>
          cases u with
          | none => simp [processMetrics, hil] at hr
          | some ul =>
            by_cases hul : ul = []
            · simp [processMetrics, hil, hul] at hr
            · simp only [processMetrics, if_neg hil, if_neg hul, Option.some.injEq] at hr
              subst hr
              refine ⟨?_, ?_, ?_⟩
              · intro hfa
                simp [processCycleTime, resolve_falsy cs gl _ hfa]
              · intro hfa
                simp [processSupportMetrics, resolve_falsy tc gl _ hfa]
              · intro hfa
                refine ⟨?_, ?_, ?_⟩
                · simp [processCycleTime, resolve_falsy ce gl _ hfa]
                · simp [processSupportMetrics, resolve_falsy ce gl _ hfa]
                · simp [processThroughput, resolve_falsy ce gl _ hfa]

/-- C5 counterexample: with non-empty issues and statuses but a non-list
statusGroups argument the call still returns none, so the claimed condition
is not the only hard failure mode. -/
theorem process_metrics_null_on_invalid_groups_cex :
    processMetrics (some [issueFix1]) none none none none none none (some [stFix1]) 0 = none ∧
    (some [issueFix1] : Option (List Issue)) ≠ none ∧ [issueFix1] ≠ ([] : List Issue) ∧
    (some [stFix1] : Option (List Status)) ≠ none ∧ [stFix1] ≠ ([] : List Status) :=
  ⟨rfl, by simp, by simp, by simp, by simp⟩

/-- Witness for C5: a valid call with an empty group list and all selectors
absent returns a result whose cycle time is the zeroed default. -/
theorem process_metrics_null_iff_and_degrade_witness :
    (processMetrics (some [issueFix1]) (some ([] : List StatusGroup)) none none none none none
        (some [stFix1]) 0).map (fun r => r.cycleTimeData) = some defaultCycleResult := by
  obtain ⟨hiff, hdeg⟩ :=
    process_metrics_null_iff_and_degrade (some [issueFix1]) (some []) none none none none none
      (some [stFix1]) 0
  cases hpm : processMetrics (some [issueFix1]) (some []) none none none none none
      (some [stFix1]) 0 with
  | none =>
    rw [hiff] at hpm
    simp at hpm
  | some r =>
    have hd := (hdeg r hpm).1 rfl
    simp [hd]

theorem summary_currentWIP_spec (issues : List Issue) (master g2m : List (String × String))
    (ctd : CycleTimeResult) (go : List String) (cs ce : Option FlowConfig)
    (sm : SupportMetrics) (tc : Option FlowConfig) :
    (calculateSummaryStats issues master g2m ctd go cs ce sm tc).currentWIP =
      wipCountSpec issues master [] cs ce tc := by
  simp only [calculateSummaryStats, wipCountSpec]
  apply List.countP_congr
  intro i _
  cases hsid : i.fields.status.bind (fun s => s.id) with
  | none => simp
  | some sid =>
    simp only []
    have hiff : sid ∈ master.foldl (fun acc p =>
        if decide (¬ p.1 ∈ getStatusIdsFromConfig cs [] master) &&
            decide (¬ p.1 ∈ getStatusIdsFromConfig ce [] master) &&
            decide (¬ p.1 ∈ getStatusIdsFromConfig tc [] master)
        then addSet acc p.1 else acc) [] ↔
        sid ∈ wipStatusIdsSpec master [] cs ce tc := by
      rw [mem_wipFold]
      simp only [wipStatusIdsSpec, List.mem_filter, List.mem_map, decide_eq_true_eq]
      tauto
    rw [decide_eq_decide.mpr hiff]

/-- C1 corrected: inside the orchestrator the summary stats resolve the
three selectors against an empty group list, so a group-type selector
contributes nothing to the excluded set; current WIP counts the issues whose
current status id lies in the universe minus the union of those
empty-group-resolved selector sets. -/
theorem summary_wip_resolves_with_empty_groups
    (i : Option (List Issue)) (g : Option (List StatusGroup)) (sd ed : Option Int)
    (cs ce tc : Option FlowConfig) (u : Option (List Status)) (now : Int)
    (r : MetricsResult) (hr : processMetrics i g sd ed cs ce tc u now = some r) :
    r.summaryStats.currentWIP =
      wipCountSpec (i.getD []) (buildStatusMasterMap (u.getD [])) [] cs ce tc := by
  cases i with
  | none => simp [processMetrics] at hr
  | some il =>
    by_cases hil : il = []
    · simp [processMetrics, hil] at hr
    · cases g with
      | none => simp [processMetrics, hil] at hr
      | some gl =>
        cases u with
        | none => simp [processMetrics, hil] at hr
        | some ul =>
          by_cases hul : ul = []
          · simp [processMetrics, hil, hul] at hr
          · simp only [processMetrics, if_neg hil, if_neg hul, Option.some.injEq] at hr
            subst hr
            simpa using summary_currentWIP_spec il (buildStatusMasterMap ul) _ _ _ cs ce _ tc

/-- C1 counterexample: a group-type triage selector over group G = [status 1]
with start and end selecting status 2; the claim predicts a WIP count of 0,
the code keeps status 1 in the WIP set and counts 1. -/
theorem summary_wip_group_selector_cex :
    (processMetrics (some [issueFix1]) (some [groupFixG]) none none (some cfgStatus2)
        (some cfgStatus2) (some cfgGroupG) (some [stFix1, stFix2]) 100).map
      (fun r => r.summaryStats.currentWIP) = some 1 ∧
    wipCountSpec [issueFix1] masterFix [groupFixG] (some cfgStatus2) (some cfgStatus2)
      (some cfgGroupG) = 0 :=
  ⟨by decide, by decide⟩

/-- Witness for C1 on the same concrete call: the code WIP count equals the
empty-group-resolved specification count. -/
theorem summary_wip_resolves_with_empty_groups_witness :
    (processMetrics (some [issueFix1]) (some [groupFixG]) none none (some cfgStatus2)
        (some cfgStatus2) (some cfgGroupG) (some [stFix1, stFix2]) 100).map
      (fun r => r.summaryStats.currentWIP) =
      some (wipCountSpec [issueFix1] (buildStatusMasterMap [stFix1, stFix2]) []
        (some cfgStatus2) (some cfgStatus2) (some cfgGroupG)) := by
  cases hpm : processMetrics (some [issueFix1]) (some [groupFixG]) none none (some cfgStatus2)
      (some cfgStatus2) (some cfgGroupG) (some [stFix1, stFix2]) 100 with
  | none => exact absurd hpm (by decide)
  | some r =>
    have h := summary_wip_resolves_with_empty_groups (some [issueFix1]) (some [groupFixG])
      none none (some cfgStatus2) (some cfgStatus2) (some cfgGroupG) (some [stFix1, stFix2])
      100 r hpm
    simp [h]

theorem lookupAssoc_groupFold (gname : String) (master : List (String × String))
    (statuses : List String) :
    ∀ (m : List (String × String)) (sid : String),
      lookupAssoc (statuses.foldl
          (fun m' s => if hasKey master s then insertAssoc s gname m' else m') m) sid =
        if sid ∈ statuses ∧ hasKey master sid = true then some gname else lookupAssoc m sid := by
  induction statuses with
  | nil =>
    intro m sid
    simp
  | cons s rest ih =>
    intro m sid
    simp only [List.foldl_cons]
    rw [ih]
    by_cases hk : hasKey master s = true
    · rw [if_pos hk]
      by_cases hmem : sid ∈ rest ∧ hasKey master sid = true
      · rw [if_pos hmem, if_pos ⟨List.mem_cons_of_mem _ hmem.1, hmem.2⟩]
      · rw [if_neg hmem, lookupAssoc_insertAssoc]
        by_cases hss : s = sid
        · subst hss
          rw [if_pos rfl, if_pos ⟨List.mem_cons_self s rest, hk⟩]
        · rw [if_neg hss]
          have hno : ¬(sid ∈ s :: rest ∧ hasKey master sid = true) := by
            rintro ⟨hm, hks⟩
            rcases List.mem_cons.mp hm with rfl | hm'
            · exact hss rfl
            · exact hmem ⟨hm', hks⟩
          rw [if_neg hno]
    · rw [if_neg hk]
      by_cases hmem : sid ∈ rest ∧ hasKey master sid = true
      · rw [if_pos hmem, if_pos ⟨List.mem_cons_of_mem _ hmem.1, hmem.2⟩]
      · rw [if_neg hmem]
        have hno : ¬(sid ∈ s :: rest ∧ hasKey master sid = true) := by
          rintro ⟨hm, hks⟩
          rcases List.mem_cons.mp hm with rfl | hm'
          · exact hk hks
          · exact hmem ⟨hm', hks⟩
        rw [if_neg hno]

theorem lookupAssoc_buildFold (master : List (String × String)) (sid : String) :
    ∀ (groups : List StatusGroup) (m : List (String × String)),
      lookupAssoc (groups.foldl (fun m g =>
          if groupValid g then
            g.statuses.foldl
              (fun m' s => if hasKey master s then insertAssoc s g.name m' else m') m
          else m) m) sid =
        (specLastGroup groups master sid).elim (lookupAssoc m sid) some := by
  intro groups
  induction groups with
  | nil =>
    intro m
    simp [specLastGroup]
  | cons g rest ih =>
    intro m
    simp only [List.foldl_cons, specLastGroup]
    rw [ih]
    cases hsp : specLastGroup rest master sid with
    | some n => simp
    | none =>
      simp only [Option.elim]
      by_cases hval : groupValid g = true
      · rw [if_pos hval, lookupAssoc_groupFold]
        by_cases hcond : sid ∈ g.statuses ∧ hasKey master sid = true
        · rw [if_pos hcond]
          have hb : (groupValid g && decide (sid ∈ g.statuses) && hasKey master sid) = true := by
            simp [hval, hcond.1, hcond.2]
          rw [if_pos hb]
        · rw [if_neg hcond]
          have hb : ¬(groupValid g && decide (sid ∈ g.statuses) && hasKey master sid) = true := by
            simp only [Bool.and_eq_true, decide_eq_true_eq]
            rintro ⟨⟨_, hm⟩, hks⟩
            exact hcond ⟨hm, hks⟩
          rw [if_neg hb]
      · rw [if_neg hval]
        have hb : ¬(groupValid g && decide (sid ∈ g.statuses) && hasKey master sid) = true := by
          simp [Bool.and_eq_true]
          intro hv
          exact absurd hv hval
        rw [if_neg hb]

/-- C4 corrected: a status listed in several groups is not double counted;
the status-to-group map keeps, for each status, the last valid configured
group that lists it among universe statuses, so by-group rollups attribute
each status to exactly one group. -/
theorem status_to_group_last_wins (groups : List StatusGroup)
    (master : List (String × String)) (sid : String) :
    lookupAssoc (buildStatusToGroupMap groups master) sid = specLastGroup groups master sid := by
  have h := lookupAssoc_buildFold master sid groups []
  cases hsp : specLastGroup groups master sid with
  | none => simpa [buildStatusToGroupMap, hsp] using h
  | some n => simpa [buildStatusToGroupMap, hsp] using h

/-- C4 counterexample: status 1 belongs to groups A and B; the claim
predicts one count and the full duration in each of A and B, but the
distribution rollup reports A with 0 and B with 1, and the time rollup
reports A with 0 and B with the whole 100 ms. -/
theorem bygroup_no_double_count_cex :
    (processMetrics (some [issueFix1]) (some [groupFixA, groupFixB]) none none none none none
        (some [stFix1]) 100).map
      (fun r => r.distribution.byGroup.map (fun e => (e.name, e.count))) =
      some [("A", 0), ("B", 1)] ∧
    (processMetrics (some [issueFix1]) (some [groupFixA, groupFixB]) none none none none none
        (some [stFix1]) 100).map
      (fun r => r.timeInStatus.byGroup.map (fun e => (e.groupName, e.totalMs))) =
      some [("A", 0), ("B", 100)] :=
  ⟨by decide, by decide⟩

theorem filter_itemKeep_filterMap (ts : Int) (items : List HistoryItem) :
    (items.filter itemKeep).filterMap
        (fun item =>
          some (⟨ts, strOfOptVal item.fromVal, strOfOptVal item.toVal⟩ : StatusChange)) =
      items.filterMap (fun item =>
        if item.field = "status" ∧ item.fromVal ≠ none ∧ item.fromStringVal ≠ none then
          some ⟨ts, strOfOptVal item.fromVal, strOfOptVal item.toVal⟩
        else none) := by
  induction items with
  | nil => rfl
  | cons it rest ihh =>
    by_cases hk : itemKeep it = true
    · have hk' := hk
      simp only [itemKeep, Bool.and_eq_true, decide_eq_true_eq,
        Option.isSome_iff_ne_none] at hk'
      have hprop : it.field = "status" ∧ it.fromVal ≠ none ∧ it.fromStringVal ≠ none :=
        ⟨hk'.1.1, hk'.1.2, hk'.2⟩
      simp only [List.filter_cons, hk, if_true, List.filterMap_cons, if_pos hprop]
      rw [ihh]
    · have hprop : ¬(it.field = "status" ∧ it.fromVal ≠ none ∧ it.fromStringVal ≠ none) := by
        intro hp
        apply hk
        simp [itemKeep, Option.isSome_iff_ne_none, hp.1, hp.2.1, hp.2.2]
      simp only [List.filter_cons, hk, Bool.false_eq_true, if_false, List.filterMap_cons,
        if_neg hprop]
      rw [ihh]

theorem historyChanges_eq_specKept (h : History) :
    historyChanges h =
      match h.created with
      | none => []
      | some ts =>
        (h.items.getD []).filterMap (fun item =>
          if item.field = "status" ∧ item.fromVal ≠ none ∧ item.fromStringVal ≠ none then
            some ⟨ts, strOfOptVal item.fromVal, strOfOptVal item.toVal⟩
          else none) := by
  cases hc : h.created with
  | none =>
    cases hi : h.items with
    | none => simp [historyChanges, hi]
    | some items => simp [historyChanges, hi, hc]
  | some ts =>
    cases hi : h.items with
    | none => simp [historyChanges, hi]
    | some items =>
      simp only [historyChanges, hi, hc, Option.getD_some]
      exact filter_itemKeep_filterMap ts items

theorem flatten_historyChanges_eq_specKept (histories : List History) :
    (histories.map historyChanges).flatten = specKeptChanges histories := by
  simp only [specKeptChanges]
  congr 1
  apply List.map_congr_left
  intro h _
  exact historyChanges_eq_specKept h

/-- C3 corrected: the extracted status-change list is sorted ascending by
event timestamp and is exactly (as a multiset) the audit entries whose field
is status and whose old value and old display string are both present, the
new value not being checked; entries with a missing or unparseable history
timestamp are skipped individually. -/
theorem extraction_sorted_perm_of_kept_items (histories : List History) :
    (extractStatusChanges histories).Sorted changeLE ∧
    (extractStatusChanges histories).Perm (specKeptChanges histories) := by
  constructor
  · exact List.sorted_insertionSort changeLE _
  · rw [← flatten_historyChanges_eq_specKept]
    exact List.perm_insertionSort changeLE _

/-- C3 counterexample: an audit item with field status and both old and new
values present, but no old display string: the claim keeps it, the code
drops it. -/
theorem extraction_filter_cex :
    extractStatusChanges [histFixNoFromString] = [] ∧
    specChangesOldNew [histFixNoFromString] = [⟨10, "1", "2"⟩] ∧
    (∃ item ∈ histFixNoFromString.items.getD [], itemKeepOldNew item = true) :=
  ⟨by decide, by decide, by decide⟩

theorem appendChanges_sublist (master : List (String × String)) (lastAdded : String)
    (cs : List StatusChange) :
    (appendChanges master lastAdded cs).Sublist
      (cs.map (fun c => (⟨c.timestamp, c.toId⟩ : TimelineEvent))) := by
  induction cs generalizing lastAdded with
  | nil => simp [appendChanges]
  | cons c rest ih =>
    simp only [appendChanges, List.map_cons]
    by_cases h0 : c.toId = ""
    · simp only [truthy, if_pos h0]
      exact (ih lastAdded).cons _
    · simp only [truthy, if_neg h0]
      split
      · exact (ih c.toId).cons₂ _
      · exact (ih lastAdded).cons _

theorem mem_extract_created (histories : List History) (c : StatusChange)
    (hc : c ∈ extractStatusChanges histories) :
    ∃ h ∈ histories, h.created = some c.timestamp := by
  have hmem : c ∈ (histories.map historyChanges).flatten :=
    (List.perm_insertionSort changeLE _).mem_iff.mp hc
  rw [List.mem_flatten] at hmem
  obtain ⟨l, hl, hcl⟩ := hmem
  rw [List.mem_map] at hl
  obtain ⟨h, hh, rfl⟩ := hl
  refine ⟨h, hh, ?_⟩
  simp only [historyChanges] at hcl
  cases hi : h.items with
  | none =>
    rw [hi] at hcl
    simp at hcl
  | some items =>
    rw [hi] at hcl
    rw [List.mem_filterMap] at hcl
    obtain ⟨item, _, hit⟩ := hcl
    cases hcr : h.created with
    | none =>
      rw [hcr] at hit
      simp at hit
    | some ts =>
      rw [hcr] at hit
      simp only [Option.some.injEq] at hit
      rw [← hit]

theorem build_timeline_shape (issue : Issue) (master : List (String × String))
    (itl : IssueTimeline) (created : Int)
    (hb : buildIssueTimelineByStatus issue master = some itl)
    (hc : issue.fields.created = some created) :
    ∃ cid, issueCreatedStatusId issue = some cid ∧ hasKey master cid = true ∧
      itl.timeline =
        ⟨created, cid⟩ :: appendChanges master cid (issueStatusChanges issue) := by
  simp only [buildIssueTimelineByStatus, hc] at hb
  cases hcid : issueCreatedStatusId issue with
  | none => simp [hcid] at hb
  | some cid =>
    simp only [hcid] at hb
    by_cases hk : hasKey master cid = true
    · rw [if_pos hk] at hb
      obtain rfl := Option.some_inj.mp hb
      exact ⟨cid, rfl, hk, rfl⟩
    · rw [if_neg hk] at hb
      exact absurd hb (by simp)

/-- C2 corrected: whenever the builder returns a timeline, the first entry
carries the issue creation timestamp; the whole timeline is nondecreasing in
timestamp provided every timestamped changelog history is at or after the
creation instant — without that proviso an audit event dated before creation
makes the second entry precede the first, as the counterexample shows. -/
theorem timeline_head_creation_and_monotone (issue : Issue)
    (master : List (String × String)) (itl : IssueTimeline) (created : Int)
    (hb : buildIssueTimelineByStatus issue master = some itl)
    (hc : issue.fields.created = some created) :
    itl.timeline.head?.map (fun e => e.timestamp) = some created ∧
    ((∀ h ∈ issue.changelog.getD [], ∀ t, h.created = some t → created ≤ t) →
      itl.timeline.Pairwise eventLE) := by
  obtain ⟨cid, _, _, htl⟩ := build_timeline_shape issue master itl created hb hc
  constructor
  · rw [htl]
    rfl
  · intro hts
    rw [htl]
    have hsorted : (issueStatusChanges issue).Sorted changeLE := by
      cases hcl : issue.changelog with
      | none => simp [issueStatusChanges, hcl]
      | some hs =>
        simp only [issueStatusChanges, hcl]
        exact List.sorted_insertionSort changeLE _
    have hbound : ∀ c ∈ issueStatusChanges issue, created ≤ c.timestamp := by
      intro c hcm
      cases hcl : issue.changelog with
      | none => simp [issueStatusChanges, hcl] at hcm
      | some hs =>
        rw [issueStatusChanges, hcl] at hcm
        obtain ⟨h, hh, hht⟩ := mem_extract_created hs c hcm
        exact hts h (by simpa [hcl] using hh) c.timestamp hht
    have hsub := appendChanges_sublist master cid (issueStatusChanges issue)
    have hmap : ((issueStatusChanges issue).map
        (fun c => (⟨c.timestamp, c.toId⟩ : TimelineEvent))).Pairwise eventLE :=
      List.Pairwise.map _ (fun _ _ hab => hab) hsorted
    have htail : (appendChanges master cid (issueStatusChanges issue)).Pairwise eventLE :=
      hmap.sublist hsub
    refine List.pairwise_cons.mpr ⟨?_, htail⟩
    intro e he
    have hem : e ∈ (issueStatusChanges issue).map
        (fun c => (⟨c.timestamp, c.toId⟩ : TimelineEvent)) := hsub.subset he
    rw [List.mem_map] at hem
    obtain ⟨c, hcm, rfl⟩ := hem
    exact hbound c hcm

/-- C2 counterexample: an issue created at 100 whose only audit event is
timestamped 50 yields the timeline [100, 50], which is not nondecreasing. -/
theorem timeline_monotonicity_cex :
    (buildIssueTimelineByStatus issueFixBack masterFix).map
      (fun itl => itl.timeline.map (fun e => e.timestamp)) = some [100, 50] ∧
    ¬ (100 : Int) ≤ 50 :=
  ⟨by decide, by decide⟩

/-- Witness for C2 on an issue whose single audit event is after creation. -/
theorem timeline_head_creation_and_monotone_witness :
    ((⟨"F", [⟨0, "1"⟩, ⟨40, "2"⟩], some "2"⟩ : IssueTimeline).timeline.head?.map
      (fun e => e.timestamp) = some 0) ∧
    ((∀ h ∈ issueFixFwd.changelog.getD [], ∀ t, h.created = some t → (0 : Int) ≤ t) →
      (⟨"F", [⟨0, "1"⟩, ⟨40, "2"⟩], some "2"⟩ : IssueTimeline).timeline.Pairwise eventLE) :=
  timeline_head_creation_and_monotone issueFixFwd masterFix
    ⟨"F", [⟨0, "1"⟩, ⟨40, "2"⟩], some "2"⟩ 0 (by decide) (by decide)

/-- Total milliseconds held by a per-status time table. -/
def sumTimeVals (m : List (String × String × Int)) : Int :=
  (m.map (fun p => p.2.2)).sum

/-- Total milliseconds held by a per-group time table. -/
def sumVals (m : List (String × Int)) : Int :=
  (m.map (fun p => p.2)).sum

theorem getDurationMs_eq (s e : Int) :
    getDurationMs s e = if e - s ≤ 0 then 0 else e - s := rfl

theorem getDurationMs_nonneg (s e : Int) : 0 ≤ getDurationMs s e := by
  rw [getDurationMs_eq]
  split <;> omega

theorem hasKey_eq_any (m : List (String × α)) (k : String) :
    hasKey m k = m.any (fun p => decide (p.1 = k)) := by
  induction m with
  | nil => rfl
  | cons p rest ih =>
    obtain ⟨pk, pv⟩ := p
    simp only [hasKey, lookupAssoc, List.any_cons]
    by_cases h : pk = k
    · simp [h]
    · simp only [if_neg h, decide_eq_false h, Bool.false_or]
      exact ih

theorem hasCounterKey_addTimeAssoc (m : List (String × String × Int)) (k : String) (d : Int)
    (k' : String) : hasCounterKey (addTimeAssoc m k d) k' = hasCounterKey m k' := by
  induction m with
  | nil => rfl
  | cons p rest ih =>
    obtain ⟨pk, pnm, pv⟩ := p
    simp only [addTimeAssoc]
    by_cases h : pk = k
    · simp [hasCounterKey, h]
    · simp only [if_neg h, hasCounterKey, List.any_cons]
      rw [show (addTimeAssoc rest k d).any (fun p => decide (p.1 = k')) =
        hasCounterKey (addTimeAssoc rest k d) k' from rfl, ih]
      rfl

theorem sumTimeVals_addTimeAssoc (m : List (String × String × Int)) (k : String) (d : Int)
    (hk : hasCounterKey m k = true) :
    sumTimeVals (addTimeAssoc m k d) = sumTimeVals m + d := by
  induction m with
  | nil => simp [hasCounterKey] at hk
  | cons p rest ih =>
    obtain ⟨pk, pnm, pv⟩ := p
    simp only [addTimeAssoc]
    by_cases h : pk = k
    · simp only [if_pos h, sumTimeVals, List.map_cons, List.sum_cons]
      omega
    · simp only [if_neg h, sumTimeVals, List.map_cons, List.sum_cons]
      have hk' : hasCounterKey rest k = true := by
        simpa [hasCounterKey, h] using hk
      have := ih hk'
      simp only [sumTimeVals] at this
      omega

theorem hasCounterKey_init (master : List (String × String)) (k : String) :
    hasCounterKey (master.map (fun p => (p.1, p.2, (0 : Int)))) k = hasKey master k := by
  simp only [hasCounterKey, hasKey_eq_any]
  induction master with
  | nil => rfl
  | cons p rest ih =>
    simp only [List.map_cons, List.any_cons]
    rw [ih]

theorem sumTimeVals_init (master : List (String × String)) :
    sumTimeVals (master.map (fun p => (p.1, p.2, (0 : Int)))) = 0 := by
  simp only [sumTimeVals, List.map_map]
  apply List.sum_eq_zero
  intro x hx
  rw [List.mem_map] at hx
  obtain ⟨q, _, rfl⟩ := hx
  rfl

theorem walkTimeline_one (now : Int) (m : List (String × String × Int))
    (e : TimelineEvent) :
    walkTimeline now m [e] =
      (if hasCounterKey m e.statusId = true then
        (if getDurationMs e.timestamp now > 0 then
          addTimeAssoc m e.statusId (getDurationMs e.timestamp now)
        else m)
      else m) := rfl

theorem walkTimeline_cons_cons (now : Int) (m : List (String × String × Int))
    (e e2 : TimelineEvent) (rest2 : List TimelineEvent) :
    walkTimeline now m (e :: e2 :: rest2) =
      walkTimeline now
        (if hasCounterKey m e.statusId = true then
          (if getDurationMs e.timestamp e2.timestamp > 0 then
            addTimeAssoc m e.statusId (getDurationMs e.timestamp e2.timestamp)
          else m)
        else m) (e2 :: rest2) := rfl

theorem walkTimeline_sum (now : Int) :
    ∀ (rest : List TimelineEvent) (e : TimelineEvent) (m : List (String × String × Int)),
      (e :: rest).Chain' eventLE →
      (∀ x ∈ e :: rest, x.timestamp ≤ now) →
      (∀ x ∈ e :: rest, hasCounterKey m x.statusId = true) →
      sumTimeVals (walkTimeline now m (e :: rest)) = sumTimeVals m + now - e.timestamp := by
  intro rest
  induction rest with
  | nil =>
    intro e m _ hnow hkeys
    have hk : hasCounterKey m e.statusId = true := hkeys e (List.mem_cons_self e [])
    have hle : e.timestamp ≤ now := hnow e (List.mem_cons_self e [])
    have hdur : getDurationMs e.timestamp now = now - e.timestamp := by
      rw [getDurationMs_eq]
      split <;> omega
    rw [walkTimeline_one, if_pos hk]
    by_cases hd : getDurationMs e.timestamp now > 0
    · rw [if_pos hd, sumTimeVals_addTimeAssoc m e.statusId _ hk, hdur]
      omega
    · rw [if_neg hd]
      rw [hdur] at hd
      omega
  | cons e2 rest2 ih =>
    intro e m hch hnow hkeys
    have hk : hasCounterKey m e.statusId = true := hkeys e (List.mem_cons_self e _)
    have hch' := List.chain'_cons.mp hch
    have hle12 : e.timestamp ≤ e2.timestamp := hch'.1
    have hle2 : e2.timestamp ≤ now := hnow e2 (by simp)
    have hdur : getDurationMs e.timestamp e2.timestamp = e2.timestamp - e.timestamp := by
      rw [getDurationMs_eq]
      split <;> omega
    rw [walkTimeline_cons_cons, if_pos hk]
    by_cases hd : getDurationMs e.timestamp e2.timestamp > 0
    · rw [if_pos hd]
      rw [ih e2 (addTimeAssoc m e.statusId _) hch'.2
        (fun x hx => hnow x (List.mem_cons_of_mem _ hx))
        (fun x hx => by
          rw [hasCounterKey_addTimeAssoc]
          exact hkeys x (List.mem_cons_of_mem _ hx))]
      rw [sumTimeVals_addTimeAssoc m e.statusId _ hk, hdur]
      omega
    · rw [if_neg hd]
      rw [ih e2 m hch'.2
        (fun x hx => hnow x (List.mem_cons_of_mem _ hx))
        (fun x hx => hkeys x (List.mem_cons_of_mem _ hx))]
      rw [hdur] at hd
      omega

theorem addTimeAssoc_nonneg (m : List (String × String × Int)) (k : String) (d : Int)
    (hm : ∀ p ∈ m, 0 ≤ p.2.2) (hd : 0 ≤ d) : ∀ p ∈ addTimeAssoc m k d, 0 ≤ p.2.2 := by
  induction m with
  | nil => simp [addTimeAssoc]
  | cons q rest ih =>
    obtain ⟨qk, qnm, qv⟩ := q
    simp only [addTimeAssoc]
    by_cases h : qk = k
    · rw [if_pos h]
      intro p hp
      rcases List.mem_cons.mp hp with rfl | hp'
      · have := hm (qk, qnm, qv) (List.mem_cons_self _ _)
        simp only at this ⊢
        omega
      · exact hm p (List.mem_cons_of_mem _ hp')
    · rw [if_neg h]
      intro p hp
      rcases List.mem_cons.mp hp with rfl | hp'
      · exact hm _ (List.mem_cons_self _ _)
      · exact ih (fun q hq => hm q (List.mem_cons_of_mem _ hq)) p hp'

theorem mem_addTimeAssoc_key (m : List (String × String × Int)) (k : String) (d : Int) :
    ∀ p ∈ addTimeAssoc m k d, p ∈ m ∨ p.1 = k := by
  induction m with
  | nil => simp [addTimeAssoc]
  | cons q rest ih =>
    obtain ⟨qk, qnm, qv⟩ := q
    simp only [addTimeAssoc]
    by_cases h : qk = k
    · rw [if_pos h]
      intro p hp
      rcases List.mem_cons.mp hp with rfl | hp'
      · exact Or.inr h
      · exact Or.inl (List.mem_cons_of_mem _ hp')
    · rw [if_neg h]
      intro p hp
      rcases List.mem_cons.mp hp with rfl | hp'
      · exact Or.inl (List.mem_cons_self _ _)
      · rcases ih p hp' with hin | hkey
        · exact Or.inl (List.mem_cons_of_mem _ hin)
        · exact Or.inr hkey

theorem walkTimeline_nonneg (now : Int) :
    ∀ (tl : List TimelineEvent) (m : List (String × String × Int)),
      (∀ p ∈ m, 0 ≤ p.2.2) → ∀ p ∈ walkTimeline now m tl, 0 ≤ p.2.2 := by
  intro tl
  induction tl with
  | nil =>
    intro m hm
    simpa [walkTimeline] using hm
  | cons e rest ih =>
    intro m hm
    simp only [walkTimeline]
    by_cases hk : hasCounterKey m e.statusId = true
    · rw [if_pos hk]
      split
      · exact ih _ (addTimeAssoc_nonneg m e.statusId _ hm (getDurationMs_nonneg _ _))
      · exact ih m hm
    · rw [if_neg hk]
      exact ih m hm

theorem walkTimeline_nonzero_touched (now : Int) :
    ∀ (tl : List TimelineEvent) (m : List (String × String × Int)) (p : String × String × Int),
      p ∈ walkTimeline now m tl → p.2.2 ≠ 0 →
      (∃ q ∈ m, q.1 = p.1 ∧ q.2.2 ≠ 0) ∨ ∃ e ∈ tl, e.statusId = p.1 := by
  intro tl
  induction tl with
  | nil =>
    intro m p hp hnz
    exact Or.inl ⟨p, hp, rfl, hnz⟩
  | cons e rest ih =>
    intro m p hp hnz
    cases rest with
    | nil =>
      rw [walkTimeline_one] at hp
      by_cases hk : hasCounterKey m e.statusId = true
      · rw [if_pos hk] at hp
        by_cases hdx : getDurationMs e.timestamp now > 0
        · rw [if_pos hdx] at hp
          rcases mem_addTimeAssoc_key m e.statusId _ p hp with hin | hkey
          · exact Or.inl ⟨p, hin, rfl, hnz⟩
          · exact Or.inr ⟨e, List.mem_cons_self _ _, hkey.symm⟩
        · rw [if_neg hdx] at hp
          exact Or.inl ⟨p, hp, rfl, hnz⟩
      · rw [if_neg hk] at hp
        exact Or.inl ⟨p, hp, rfl, hnz⟩
    | cons e2 rest2 =>
      rw [walkTimeline_cons_cons] at hp
      rcases ih _ p hp hnz with ⟨q, hq, hqk, hqnz⟩ | ⟨e2x, he2x, heq⟩
      · by_cases hk : hasCounterKey m e.statusId = true
        · rw [if_pos hk] at hq
          by_cases hdx : getDurationMs e.timestamp e2.timestamp > 0
          · rw [if_pos hdx] at hq
            rcases mem_addTimeAssoc_key m e.statusId _ q hq with hin | hkey
            · exact Or.inl ⟨q, hin, hqk, hqnz⟩
            · exact Or.inr ⟨e, List.mem_cons_self _ _, by rw [hkey] at hqk; exact hqk⟩
          · rw [if_neg hdx] at hq
            exact Or.inl ⟨q, hq, hqk, hqnz⟩
        · rw [if_neg hk] at hq
          exact Or.inl ⟨q, hq, hqk, hqnz⟩
      · exact Or.inr ⟨e2x, List.mem_cons_of_mem _ he2x, heq⟩

theorem sum_map_congr (l : List α) (f g : α → Int) (h : ∀ x ∈ l, f x = g x) :
    (l.map f).sum = (l.map g).sum := by
  rw [List.map_congr_left h]

theorem sum_map_filter_eq (f : α → Int) (P : α → Bool) (l : List α)
    (h : ∀ x ∈ l, P x = false → f x = 0) :
    ((l.filter P).map f).sum = (l.map f).sum := by
  induction l with
  | nil => rfl
  | cons a l ih =>
    by_cases hp : P a = true
    · simp only [List.filter_cons, hp, if_true, List.map_cons, List.sum_cons]
      rw [ih (fun x hx hfx => h x (List.mem_cons_of_mem _ hx) hfx)]
    · have hp' : P a = false := by simpa using hp
      simp only [List.filter_cons, hp', Bool.false_eq_true, if_false, List.map_cons,
        List.sum_cons]
      rw [ih (fun x hx hfx => h x (List.mem_cons_of_mem _ hx) hfx),
        h a (List.mem_cons_self _ _) hp']
      omega

theorem sum_totalMs_map_mk (n : Nat) (table : List (String × String × Int)) :
    ((table.map (mkStatusTimeEntry n)).map (fun s => s.totalMs)).sum = sumTimeVals table := by
  rw [List.map_map]
  rfl

theorem sum_totalMs_map_mkGroup (n : Nat) (gms : List (String × Int)) :
    ((gms.map (mkGroupTimeEntry n)).map (fun e => e.totalMs)).sum = sumVals gms := by
  rw [List.map_map]
  rfl

theorem sumVals_zeroPairs (l : List String) :
    sumVals (l.map (fun n => (n, (0 : Int)))) = 0 := by
  simp only [sumVals, List.map_map]
  apply List.sum_eq_zero
  intro x hx
  rw [List.mem_map] at hx
  obtain ⟨q, _, rfl⟩ := hx
  rfl

theorem hasKey_zeroPairs (l : List String) (k : String) :
    hasKey (l.map (fun n => (n, (0 : Int)))) k = true ↔ k ∈ l := by
  rw [hasKey_eq_any]
  induction l with
  | nil => simp
  | cons a l ih =>
    simp only [List.map_cons, List.any_cons, Bool.or_eq_true, decide_eq_true_eq, List.mem_cons]
    rw [← ih]
    constructor
    · rintro (h | h)
      · exact Or.inl h.symm
      · exact Or.inr h
    · rintro (h | h)
      · exact Or.inl h.symm
      · exact Or.inr h

theorem sumVals_insertAssoc_add (m : List (String × Int)) (k : String) (v d : Int)
    (hl : lookupAssoc m k = some v) :
    sumVals (insertAssoc k (v + d) m) = sumVals m + d := by
  induction m with
  | nil => simp [lookupAssoc] at hl
  | cons p rest ih =>
    obtain ⟨pk, pv⟩ := p
    simp only [insertAssoc]
    by_cases h : pk = k
    · rw [if_pos h]
      simp only [lookupAssoc, if_pos h, Option.some.injEq] at hl
      simp only [sumVals, List.map_cons, List.sum_cons]
      omega
    · rw [if_neg h]
      simp only [lookupAssoc, if_neg h] at hl
      simp only [sumVals, List.map_cons, List.sum_cons]
      have := ih hl
      simp only [sumVals] at this
      omega

theorem timeByGroupStep_hasKey (g2m : List (String × String)) (gms : List (String × Int))
    (s : StatusTimeEntry) (k : String) :
    hasKey (timeByGroupStep g2m gms s) k = hasKey gms k := by
  cases hll : lookupAssoc g2m s.id with
  | none => simp [timeByGroupStep, hll]
  | some gn =>
    cases hl : lookupAssoc gms gn with
    | none => simp [timeByGroupStep, hll, hl]
    | some v =>
      simp only [timeByGroupStep, hll, hl]
      rw [hasKey_insertAssoc]
      by_cases h : gn = k
      · subst h
        simp [hasKey, hl]
      · simp [h]

theorem byGroup_fold_sum (g2m : List (String × String)) :
    ∀ (entries : List StatusTimeEntry) (gms : List (String × Int)),
      sumVals (entries.foldl (timeByGroupStep g2m) gms) =
        sumVals gms + (entries.map (fun s =>
          match lookupAssoc g2m s.id with
          | some gn => if hasKey gms gn = true then s.totalMs else 0
          | none => 0)).sum := by
  intro entries
  induction entries with
  | nil =>
    intro gms
    simp
  | cons s rest ih =>
    intro gms
    simp only [List.foldl_cons, List.map_cons, List.sum_cons]
    rw [ih (timeByGroupStep g2m gms s)]
    have hmapeq : (rest.map (fun x =>
        match lookupAssoc g2m x.id with
        | some gn => if hasKey (timeByGroupStep g2m gms s) gn = true then x.totalMs else 0
        | none => 0)) = rest.map (fun x =>
        match lookupAssoc g2m x.id with
        | some gn => if hasKey gms gn = true then x.totalMs else 0
        | none => 0) := by
      apply List.map_congr_left
      intro x _
      simp only [timeByGroupStep_hasKey]
    rw [hmapeq]
    have hstep : sumVals (timeByGroupStep g2m gms s) = sumVals gms +
        (match lookupAssoc g2m s.id with
          | some gn => if hasKey gms gn = true then s.totalMs else 0
          | none => 0) := by
      cases hll : lookupAssoc g2m s.id with
      | none => simp [timeByGroupStep, hll]
      | some gn =>
        cases hl : lookupAssoc gms gn with
        | none => simp [timeByGroupStep, hll, hl, hasKey]
        | some v =>
          simp only [timeByGroupStep, hll, hl]
          rw [sumVals_insertAssoc_add gms gn v s.totalMs hl]
          have hkk : hasKey gms gn = true := by simp [hasKey, hl]
          rw [if_pos hkk]
    rw [hstep]
    omega

theorem mem_timeByStatusOf (table : List (String × String × Int))
    (g2m : List (String × String)) (n : Nat) (s : StatusTimeEntry)
    (hs : s ∈ timeByStatusOf table g2m n) : ∃ p ∈ table, s = mkStatusTimeEntry n p := by
  simp only [timeByStatusOf] at hs
  have hs2 := (List.perm_insertionSort (statusTimeLE g2m) _).mem_iff.mp hs
  rw [List.mem_filter] at hs2
  obtain ⟨hsm, _⟩ := hs2
  rw [List.mem_map] at hsm
  obtain ⟨p, hp, hps⟩ := hsm
  exact ⟨p, hp, hps.symm⟩

theorem appendChanges_keys (master : List (String × String)) :
    ∀ (lastAdded : String) (cs : List StatusChange),
      ∀ ev ∈ appendChanges master lastAdded cs, hasKey master ev.statusId = true := by
  intro lastAdded cs
  induction cs generalizing lastAdded with
  | nil => simp [appendChanges]
  | cons c rest ih =>
    simp only [appendChanges]
    by_cases h0 : c.toId = ""
    · simp only [truthy, if_pos h0]
      exact ih lastAdded
    · simp only [truthy, if_neg h0]
      split
      · next hcond =>
        intro ev hev
        rcases List.mem_cons.mp hev with rfl | hev'
        · have hc2 := hcond
          simp only [Bool.and_eq_true] at hc2
          exact hc2.1
        · exact ih c.toId ev hev'
      · exact ih lastAdded

/-- C7 corrected: for a built timeline whose events are nondecreasing and
all at or before the aggregation instant, when every status of the timeline
maps to a configured group the per-issue by-group milliseconds sum to now
minus the creation timestamp exactly; without the monotonicity proviso a
pre-creation audit event breaks the telescoping, see the counterexample. -/
theorem time_in_status_telescopes (issue : Issue) (master : List (String × String))
    (itl : IssueTimeline) (g2m : List (String × String)) (groupNames : List String)
    (now created : Int)
    (hb : buildIssueTimelineByStatus issue master = some itl)
    (hc : issue.fields.created = some created)
    (hmono : itl.timeline.Chain' eventLE)
    (hnow : ∀ e ∈ itl.timeline, e.timestamp ≤ now)
    (hgrp : ∀ e ∈ itl.timeline, ∃ gn,
      lookupAssoc g2m e.statusId = some gn ∧ gn ∈ groupNames) :
    ((calculateTimeInStatusDetailed [itl] master g2m groupNames now).byGroup.map
      (fun e => e.totalMs)).sum = now - created := by
  obtain ⟨cid, hcid, hkcid, htl⟩ := build_timeline_shape issue master itl created hb hc
  have hkeys : ∀ e ∈ itl.timeline, hasKey master e.statusId = true := by
    rw [htl]
    intro e he
    rcases List.mem_cons.mp he with rfl | he2
    · exact hkcid
    · exact appendChanges_keys master cid _ e he2
  have htable : timeTableOf [itl] master now =
      walkTimeline now (master.map (fun p => (p.1, p.2, (0 : Int)))) itl.timeline := by
    simp [timeTableOf]
  have hsum_table : sumTimeVals (timeTableOf [itl] master now) = now - created := by
    rw [htable, htl]
    rw [walkTimeline_sum now (appendChanges master cid (issueStatusChanges issue))
      ⟨created, cid⟩ (master.map (fun p => (p.1, p.2, (0 : Int))))
      (htl ▸ hmono) (htl ▸ hnow)
      (fun x hx => by
        rw [hasCounterKey_init]
        exact (htl ▸ hkeys) x hx)]
    rw [sumTimeVals_init]
    show (0 : Int) + now - created = now - created
    omega
  have hnn : ∀ p ∈ timeTableOf [itl] master now, 0 ≤ p.2.2 := by
    rw [htable]
    apply walkTimeline_nonneg
    intro p hp
    rw [List.mem_map] at hp
    obtain ⟨q, _, rfl⟩ := hp
    exact le_refl 0
  have htouched : ∀ p ∈ timeTableOf [itl] master now, p.2.2 ≠ 0 →
      ∃ e ∈ itl.timeline, e.statusId = p.1 := by
    rw [htable]
    intro p hp hnz
    rcases walkTimeline_nonzero_touched now itl.timeline _ p hp hnz with
      ⟨q, hq, _, hqnz⟩ | h
    · rw [List.mem_map] at hq
      obtain ⟨r, _, rfl⟩ := hq
      exact absurd rfl hqnz
    · exact h
  have hfiltzero : ∀ x ∈ (timeTableOf [itl] master now).map
      (mkStatusTimeEntry [itl].length),
      (decide (x.totalMs > 0) || hasKey g2m x.id) = false → x.totalMs = 0 := by
    intro x hx hpf
    rw [List.mem_map] at hx
    obtain ⟨p, hp, rfl⟩ := hx
    have hge : (0 : Int) ≤ (mkStatusTimeEntry [itl].length p).totalMs := hnn p hp
    simp only [Bool.or_eq_false_iff, decide_eq_false_iff_not, not_lt] at hpf
    omega
  have hsum_bystatus : ((timeByStatusOf (timeTableOf [itl] master now) g2m
      [itl].length).map (fun s => s.totalMs)).sum = now - created := by
    have h1 := ((List.perm_insertionSort (statusTimeLE g2m)
      (((timeTableOf [itl] master now).map (mkStatusTimeEntry [itl].length)).filter
        (fun s => decide (s.totalMs > 0) || hasKey g2m s.id))).map
      (fun s => s.totalMs)).sum_eq
    rw [timeByStatusOf, h1, sum_map_filter_eq _ _ _ hfiltzero, sum_totalMs_map_mk,
      hsum_table]
  have hcontrib : ∀ s ∈ timeByStatusOf (timeTableOf [itl] master now) g2m [itl].length,
      (match lookupAssoc g2m s.id with
        | some gn =>
          if hasKey (groupNames.map (fun n => (n, (0 : Int)))) gn = true then s.totalMs
          else 0
        | none => 0) = s.totalMs := by
    intro s hs
    by_cases hz : s.totalMs = 0
    · cases hll : lookupAssoc g2m s.id with
      | none => simp [hz]
      | some gn => simp [hll, hz]
    · obtain ⟨p, hp, hsp⟩ := mem_timeByStatusOf _ _ _ s hs
      subst hsp
      have hpz : p.2.2 ≠ 0 := hz
      obtain ⟨e, he, heid⟩ := htouched p hp hpz
      obtain ⟨gn, hgn, hgnm⟩ := hgrp e he
      rw [heid] at hgn
      have hgn' : lookupAssoc g2m (mkStatusTimeEntry [itl].length p).id = some gn := hgn
      simp only [hgn']
      rw [if_pos ((hasKey_zeroPairs groupNames gn).mpr hgnm)]
  simp only [calculateTimeInStatusDetailed]
  rw [sum_totalMs_map_mkGroup, byGroup_fold_sum, sumVals_zeroPairs,
    sum_map_congr _ _ _ hcontrib, hsum_bystatus]
  omega

/-- C7 counterexample: a built timeline [(100, s1), (50, s2)] from a
pre-creation audit event, every status grouped under G: the by-group sum at
instant 200 is 150 while now minus creation is 100. -/
theorem time_in_status_telescope_cex :
    (buildIssueTimelineByStatus issueFixBack masterFix).map (fun itl =>
      ((calculateTimeInStatusDetailed [itl] masterFix
          (buildStatusToGroupMap [groupFixBoth] masterFix)
          (buildGroupOrder [groupFixBoth]) 200).byGroup.map
        (fun e => e.totalMs)).sum) = some 150 ∧
    (200 : Int) - 100 ≠ 150 :=
  ⟨by decide, by decide⟩

/-- Witness for C7 on the forward issue created at 0, moved at 40, closed at
the aggregation instant 100, with both statuses grouped under G. -/
theorem time_in_status_telescopes_witness :
    ((calculateTimeInStatusDetailed [⟨"F", [⟨0, "1"⟩, ⟨40, "2"⟩], some "2"⟩] masterFix
        (buildStatusToGroupMap [groupFixBoth] masterFix) (buildGroupOrder [groupFixBoth])
        100).byGroup.map (fun e => e.totalMs)).sum = 100 - 0 := by
  refine time_in_status_telescopes issueFixFwd masterFix
    ⟨"F", [⟨0, "1"⟩, ⟨40, "2"⟩], some "2"⟩ (buildStatusToGroupMap [groupFixBoth] masterFix)
    (buildGroupOrder [groupFixBoth]) 100 0 (by decide) (by decide) ?_ ?_ ?_
  · refine List.chain'_cons.mpr ⟨?_, List.chain'_singleton _⟩
    show (0 : Int) ≤ 40
    decide
  · intro e he
    simp only [List.mem_cons, List.not_mem_nil, or_false] at he
    rcases he with rfl | rfl
    · decide
    · decide
  · intro e he
    simp only [List.mem_cons, List.not_mem_nil, or_false] at he
    rcases he with rfl | rfl
    · exact ⟨"G", by decide, by decide⟩
    · exact ⟨"G", by decide, by decide⟩

end JiraMetrics
